import Mathlib

/-!
Verification of the two adaptive-sampling learners of this repository:
`adaptive/learner/integrator_learner.py` (recursive Clenshaw-Curtis
quadrature) and `adaptive/learner/triangulating_learner.py` (adaptive
triangulation).

Modelling conventions:
* Python floats are idealized as exact rationals; the IEEE special values
  that the code manipulates (`np.inf`, `np.nan`) are captured by the type
  `F` below, with arithmetic following IEEE semantics for the operations
  the code uses.
* The precomputed Clenshaw-Curtis coefficient tables
  (`integrator_coeffs.py`) and the external numeric routines
  (`scipy.linalg.norm`, `math.sqrt`, `np.spacing`) are constant data /
  black boxes per the specification; they appear as the parameter
  structure `NumTab`, so every theorem below holds for every
  instantiation of those tables.
* The pure-geometry `Triangulation` primitive is an external collaborator
  (not part of this repository's core sources); it appears as the
  parameter structure `GeoOps`.
* Python dictionaries are modelled as association lists preserving
  insertion order, Python sets as duplicate-free lists, and the object
  graph of `Interval` nodes as an arena (`List INode`) addressed by
  integer handles, with `parent`/`children` stored as handles.
-/

/-- IEEE-style float value: NaN, -inf, a finite rational, or +inf. -/
inductive F where
  | nan : F
  | ninf : F
  | fin : ℚ → F
  | inf : F
deriving DecidableEq, Repr

namespace F

/-- np.isfinite. -/
def isFinite : F → Bool
  | fin _ => true
  | _ => false

/-- np.isinf (true on both infinities, false on NaN). -/
def isInf : F → Bool
  | inf => true
  | ninf => true
  | _ => false

/-- IEEE addition (for the sums of errors the code forms). -/
def add : F → F → F
  | nan, _ => nan
  | _, nan => nan
  | inf, ninf => nan
  | ninf, inf => nan
  | inf, _ => inf
  | _, inf => inf
  | ninf, _ => ninf
  | _, ninf => ninf
  | fin a, fin b => fin (a + b)

/-- IEEE negation. -/
def neg : F → F
  | nan => nan
  | inf => ninf
  | ninf => inf
  | fin a => fin (-a)

/-- IEEE subtraction. -/
def sub (x y : F) : F := add x (neg y)

/-- Absolute value. -/
def fabs : F → F
  | nan => nan
  | inf => inf
  | ninf => inf
  | fin a => fin |a|

/-- IEEE strict comparison: any comparison with NaN is false. -/
def flt : F → F → Bool
  | nan, _ => false
  | _, nan => false
  | ninf, ninf => false
  | ninf, _ => true
  | _, ninf => false
  | inf, _ => false
  | fin _, inf => true
  | fin a, fin b => decide (a < b)

/-- Python max of two floats: keeps the first unless the second is larger. -/
def fmax (x y : F) : F := if flt x y then y else x

/-- Division of a float by a (finite) float, IEEE semantics as produced by
numpy scalars: a finite numerator over zero gives a signed infinity, 0/0
gives NaN. -/
def divQ : F → ℚ → F
  | nan, _ => nan
  | inf, q => if 0 < q then inf else if q < 0 then ninf else nan
  | ninf, q => if 0 < q then ninf else if q < 0 then inf else nan
  | fin a, q => if q = 0 then (if 0 < a then inf else if a < 0 then ninf else nan)
                else fin (a / q)

end F

/-- Division of two rationals with numpy-float semantics for a zero
denominator (signed infinity, or NaN for 0/0). -/
def npDiv (a b : ℚ) : F :=
  if b = 0 then (if 0 < a then F.inf else if a < 0 then F.ninf else F.nan)
  else F.fin (a / b)

section AssocHelpers

variable {α β : Type} [DecidableEq α]

/-- Dictionary lookup on an insertion-ordered association list. -/
def alookup : List (α × β) → α → Option β
  | [], _ => none
  | (k, v) :: rest, a => if k = a then some v else alookup rest a

/-- Dictionary assignment: replace the value in place if the key exists
(keeping its position, as Python dicts do), else append. -/
def aset : List (α × β) → α → β → List (α × β)
  | [], a, b => [(a, b)]
  | (k, v) :: rest, a, b =>
      if k = a then (k, b) :: rest else (k, v) :: aset rest a b

/-- Dictionary key removal (dict.pop with default). -/
def aremove : List (α × β) → α → List (α × β)
  | [], _ => []
  | (k, v) :: rest, a => if k = a then rest else (k, v) :: aremove rest a

/-- The keys of an association list. -/
def akeys (l : List (α × β)) : List α := l.map (·.1)

/-- Python set.add modelled on a duplicate-free list (keeps encounter
order; only membership is ever observed on sets). -/
def setAdd (l : List α) (a : α) : List α := if a ∈ l then l else l ++ [a]

/-- Python set.discard. -/
def setDiscardL (l : List α) (a : α) : List α := l.filter (· ≠ a)

/-- Union of a list into a set-as-list, preserving encounter order. -/
def setUnionL (l : List α) (m : List α) : List α := m.foldl setAdd l

/-- Write index i of a list (numpy element assignment). -/
def listSet : List α → ℕ → α → List α
  | [], _, _ => []
  | _ :: rest, 0, a => a :: rest
  | x :: rest, n + 1, a => x :: listSet rest n a

/-- Overwrite the first entries of `row` with `vals`
(numpy slice assignment `row[:len(vals)] = vals`). -/
def rowSetPref (row vals : List α) : List α :=
  vals.take row.length ++ row.drop vals.length

/-- Elementwise subtraction of two rational vectors (numpy broadcasting is
never relied on here: the code subtracts equal-length rows). -/
def vecSub : List ℚ → List ℚ → List ℚ
  | [], [] => []
  | [], _ => []
  | _, [] => []
  | a :: as_, b :: bs => (a - b) :: vecSub as_ bs

/-- The stride-2 slice `l[:n:2]`. -/
def strideTake (l : List α) (n : ℕ) : List α :=
  ((l.take n).enum.filter (fun p => p.1 % 2 = 0)).map (·.2)

end AssocHelpers

/-- Modelled from the spec: the constant Clenshaw-Curtis data of
`integrator_coeffs.py` (per-depth point counts `ns`, abscissae `xi`,
inverse Vandermonde matrices `V_inv`, downdating constants `alpha`,
`gamma` and working vectors `b_def`, shift matrices `T_left`/`T_right`,
condition numbers `Vcond`) together with the external numeric routines
the integrator imports (`scipy.linalg.norm`, `math.sqrt(2)`,
`np.spacing(1)`).  The spec treats all of these as constant numeric data
or external collaborators, so the development is parametric in them:
matrix products appear as the functions `VinvMul`, `TleftMul`,
`TrightMul`. -/
structure NumTab where
  ns : ℕ → ℕ
  xi : ℕ → List ℚ
  bdef : ℕ → List ℚ
  alphav : ℕ → ℚ
  gammav : ℕ → ℚ
  VinvMul : ℕ → List ℚ → List ℚ
  TleftMul : List ℚ → List ℚ
  TrightMul : List ℚ → List ℚ
  Vcond : ℕ → ℚ
  qnorm : List ℚ → ℚ
  sqrt2 : ℚ
  eps : ℚ

/-- Value of a float, treating non-finite entries as the zeros that
`_zero_nans` just wrote there. -/
def F.toQ : F → ℚ
  | F.fin q => q
  | _ => 0

/-- The indices of the non-finite entries of fx (`_zero_nans` records
them and overwrites the entries with 0.0). -/
def zeroNansIdx (fx : List F) : List ℕ :=
  (fx.enum.filter (fun p => ¬ p.2.isFinite)).map (·.1)

/-- The function-value vector with the non-finite entries zeroed
(the mutation `fx[i] = 0.0` performed by `_zero_nans`). -/
def zeroNansVec (fx : List F) : List ℚ := fx.map F.toQ

/-- The function-value vector as it is left behind for later tests:
`_calc_coeffs` and `process_make_first` restore the recorded indices
with `fx[nans] = np.nan`. -/
def restoreNans (fx : List F) : List F :=
  fx.map (fun x => if x.isFinite then x else F.nan)

/-- The body of one iteration of the inner `for j in range(m-1, 0, -1)`
loop of `_downdate`, updating `b[j]` in place. -/
def downdateInner (tab : NumTab) (xii : ℚ) (b : List ℚ) (j : ℕ) : List ℚ :=
  listSet b j ((b.getD j 0 + xii * b.getD (j + 1) 0
                - tab.gammav (j + 1) * b.getD (j + 2) 0) / tab.alphav (j - 1))

/-- One iteration of the outer loop of `_downdate` (one non-finite
abscissa index `i`), acting on the state `(b, m, c)`. -/
def downdateStep (tab : NumTab) (depth : ℕ) (st : List ℚ × ℕ × List ℚ)
    (i : ℕ) : List ℚ × ℕ × List ℚ :=
  let b := st.1
  let m := st.2.1
  let c := st.2.2
  let b := listSet b (m + 1) (b.getD (m + 1) 0 / tab.alphav m)
  let xii := (tab.xi depth).getD i 0
  let b := listSet b m ((b.getD m 0 + xii * b.getD (m + 1) 0) / tab.alphav (m - 1))
  let b := (List.range (m - 1)).reverse.foldl
      (fun b0 k => downdateInner tab xii b0 (k + 1)) b
  let b := b.drop 1
  let factor := c.getD m 0 / b.getD m 0
  let c := (c.enum.map (fun p => if p.1 < m then p.2 - factor * b.getD p.1 0 else p.2))
  let c := listSet c m 0
  (b, m - 1, c)

/-- `_downdate(c, nans, depth)`: remove the contribution of each
non-finite abscissa from the coefficient vector `c`. -/
def downdate (tab : NumTab) (c : List ℚ) (nans : List ℕ) (depth : ℕ) : List ℚ :=
  (nans.foldl (downdateStep tab depth) (tab.bdef depth, tab.ns depth - 1, c)).2.2

/-- `_calc_coeffs(fx, depth)`: zero the non-finite samples, apply the
inverse Vandermonde, downdate if necessary; returns the coefficients and
the function-value vector as the caller stores it (non-finite entries
restored as NaN). -/
def calcCoeffs (tab : NumTab) (depth : ℕ) (fx : List F) : List ℚ × List F :=
  let nans := zeroNansIdx fx
  let cNew := tab.VinvMul depth (zeroNansVec fx)
  if nans = [] then (cNew, fx)
  else (downdate tab cNew nans depth, restoreNans fx)

/-- One `Interval` node.  `parent` and `children` are arena handles;
`fx` doubles as the `hasattr(self, 'fx')` marker that the `done`
property tests; `igral` starts as Python `None`. -/
structure INode where
  a : ℚ
  b : ℚ
  c : List (List ℚ)
  cOld : List ℚ
  depth : ℕ
  fx : Option (List F)
  igral : Option ℚ
  err : F
  tol : Option ℚ
  rdepth : ℕ
  ndiv : ℤ
  parent : Option ℕ
  children : List ℕ
  donePoints : List (ℚ × F)
  estErr : F
  discard : Bool
deriving DecidableEq, Repr

/-- `Interval.complete`: all `ns[depth]` sample values are present. -/
def INode.complete (tab : NumTab) (nd : INode) : Bool :=
  nd.donePoints.length = tab.ns nd.depth

/-- `Interval.done`: complete and the coefficients/err computed
(`hasattr(self, 'fx')`). -/
def INode.doneb (tab : NumTab) (nd : INode) : Bool :=
  nd.fx.isSome && nd.complete tab

/-- `Interval.points(depth)`: `(a+b)/2 + (b-a)*xi[depth]/2`. -/
def INode.pointsAt (tab : NumTab) (nd : INode) (depth : ℕ) : List ℚ :=
  (tab.xi depth).map (fun x => (nd.a + nd.b) / 2 + (nd.b - nd.a) * x / 2)

/-- Sorted-dict insertion for `ival.done_points[point] = value`
(`SortedDict` keeps keys ascending; assignment replaces an existing
key in place). -/
def sdInsert : List (ℚ × F) → ℚ → F → List (ℚ × F)
  | [], x, v => [(x, v)]
  | (k, w) :: rest, x, v =>
      if k = x then (k, v) :: rest
      else if x < k then (x, v) :: (k, w) :: rest
      else (k, w) :: sdInsert rest x v

/-- Errors surfaced by the integrator: `ValueError` (unknown point or
missing tolerances), `DivergentIntegralError`, the `TypeError` that
Python raises when arithmetic meets `None`, `IndexError` (indexing an
empty `SortedSet`), and a marker for a non-terminating `choose_points`
loop (the Python `while` would spin forever). -/
inductive IErr where
  | valueError : IErr
  | divergentIntegralError : IErr
  | typeError : IErr
  | indexError : IErr
  | nonTermination : IErr
deriving DecidableEq, Repr

/-- State of an `IntegratorLearner`.  `arena` holds every `Interval`
ever created, addressed by its index; `ivals` and `prioritySplit` hold
handles; `xMapping` maps an abscissa to the (rdepth-sorted) handles of
the intervals needing it; `cacheBranches` is `_complete_branches`. -/
structure IState where
  tol : Option ℚ
  rtol : Option ℚ
  arena : List INode
  prioritySplit : List ℕ
  ivals : List ℕ
  donePoints : List (ℚ × F)
  notDonePoints : List ℚ
  stack : List ℚ
  errFinal : F
  igralFinal : F
  xMapping : List (ℚ × List ℕ)
  firstIval : ℕ
  cacheBranches : List ℕ
deriving DecidableEq, Repr

/-- Read an arena node (a dangling handle yields an inert default; the
Python object graph cannot dangle). -/
def IState.node (arena : List INode) (i : ℕ) : INode :=
  arena.getD i { a := 0, b := 0, c := [], cOld := [], depth := 0, fx := none,
                 igral := none, err := F.nan, tol := none, rdepth := 0,
                 ndiv := 0, parent := none, children := [], donePoints := [],
                 estErr := F.nan, discard := true }

/-- Replace an arena node. -/
def arenaSet (arena : List INode) (i : ℕ) (nd : INode) : List INode :=
  listSet arena i nd

/-- Insert a handle into the err-sorted `ivals` set (SortedSet keyed by
`attrgetter('err')`; a new element goes after all elements with a key
not larger, and set semantics forbid duplicates). -/
def ivalsInsert (arena : List INode) (l : List ℕ) (i : ℕ) : List ℕ :=
  if i ∈ l then l
  else
    let rec go : List ℕ → List ℕ
      | [] => [i]
      | j :: rest =>
          if F.flt (IState.node arena i).err (IState.node arena j).err
          then i :: j :: rest else j :: go rest
    go l

/-- Insert a handle into an rdepth-sorted `x_mapping[x]` set. -/
def rdepthInsert (arena : List INode) (l : List ℕ) (i : ℕ) : List ℕ :=
  if i ∈ l then l
  else
    let rec go : List ℕ → List ℕ
      | [] => [i]
      | j :: rest =>
          if (IState.node arena i).rdepth < (IState.node arena j).rdepth
          then i :: j :: rest else j :: go rest
    go l

/-- `process_make_first(self)`: fit at depth 3 and at depth 2 on the
shared sub-grid, set `err`, `igral`, and inflate `err` when the two fits
disagree by more than 10 percent. -/
def processMakeFirst (tab : NumTab) (nd : INode) : INode :=
  let fx := nd.donePoints.map (·.2)
  let nans := zeroNansIdx fx
  let fq := zeroNansVec fx
  let c3 := tab.VinvMul 3 fq
  let c2 := tab.VinvMul 2 (strideTake fq (tab.ns 3))
  let c := listSet nd.c 3 (rowSetPref (nd.c.getD 3 []) c3)
  let c := listSet c 2 (rowSetPref (c.getD 2 []) (c2.take (tab.ns 2)))
  let fxStored := if nans = [] then fx else restoreNans fx
  let cOld := List.replicate fx.length (0 : ℚ)
  let cDiff := tab.qnorm (vecSub (c.getD nd.depth []) (c.getD 2 []))
  let err := F.fin ((nd.b - nd.a) * cDiff)
  let igral := (nd.b - nd.a) * (c.getD nd.depth []).getD 0 0 / tab.sqrt2
  let err := if F.flt (F.fin (1/10)) (npDiv cDiff (tab.qnorm (c.getD 3 [])))
             then F.fmax err (F.fin ((nd.b - nd.a) * tab.qnorm (c.getD 3 [])))
             else err
  { nd with c := c, fx := some fxStored, cOld := cOld, err := err,
            igral := some igral }

/-- The ndiv update of `process_split`
(`self.ndiv = parent.ndiv + (abs(parent.c[0,0]) > 0 and
self.c[0,0] / parent.c[0,0] > 2)`); the conjunction short-circuits, so
the division only happens when the parent coefficient is nonzero. -/
def ndivUpdate (parentNdiv : ℤ) (parentC00 c00 : ℚ) : ℤ :=
  parentNdiv +
    (if |parentC00| > 0 then (if c00 / parentC00 > 2 then 1 else 0) else 0)

/-- The divergence test of `process_split`
(`self.ndiv > ndiv_max and 2*self.ndiv > self.rdepth`, `ndiv_max = 20`). -/
def divergenceCheck (ndiv : ℤ) (rdepth : ℕ) : Bool :=
  ndiv > 20 && 2 * ndiv > (rdepth : ℤ)

/-- The tail of `process_split`: update `ndiv` from the leading
coefficients and raise `DivergentIntegralError` when the divergence
test fires. -/
def processSplitNdivStep (parentNdiv : ℤ) (parentC00 c00 : ℚ) (rdepth : ℕ) :
    Except IErr ℤ :=
  let n := ndivUpdate parentNdiv parentC00 c00
  if divergenceCheck n rdepth then .error .divergentIntegralError else .ok n

/-- `process_split(self)` (acting on this node, given its parent). -/
def processSplit (tab : NumTab) (nd parentNd : INode) : Except IErr INode :=
  let fx := nd.donePoints.map (·.2)
  let cc := calcCoeffs tab nd.depth fx
  let cNew := cc.1
  let c := listSet nd.c nd.depth (rowSetPref (nd.c.getD nd.depth []) (cNew.take (tab.ns nd.depth)))
  let tmul := if nd.a = parentNd.a then tab.TleftMul else tab.TrightMul
  let cOld := tmul (parentNd.c.getD parentNd.depth [])
  let cDiff := tab.qnorm (vecSub (c.getD nd.depth []) cOld)
  let err := F.fin ((nd.b - nd.a) * cDiff)
  let igral := (nd.b - nd.a) * (c.getD nd.depth []).getD 0 0 / tab.sqrt2
  let pc00 := (parentNd.c.getD 0 []).getD 0 0
  let c00 := (c.getD 0 []).getD 0 0
  match processSplitNdivStep parentNd.ndiv pc00 c00 nd.rdepth with
  | .error e => .error e
  | .ok ndiv =>
      .ok { nd with c := c, fx := some cc.2, cOld := cOld, err := err,
                    igral := some igral, ndiv := ndiv }

/-- `process_refine(self)`; returns the node and the `force_split`
flag. -/
def processRefine (tab : NumTab) (nd : INode) : INode × Bool :=
  let fx := nd.donePoints.map (·.2)
  let cc := calcCoeffs tab nd.depth fx
  let cNew := cc.1
  let c := listSet nd.c nd.depth (rowSetPref (nd.c.getD nd.depth []) (cNew.take (tab.ns nd.depth)))
  let cDiff := tab.qnorm (vecSub (c.getD (nd.depth - 1) []) (c.getD nd.depth []))
  let err := F.fin ((nd.b - nd.a) * cDiff)
  let igral := (nd.b - nd.a) * cNew.getD 0 0 / tab.sqrt2
  let nc := tab.qnorm cNew
  let forceSplit := nc > 0 && cDiff / nc > 1/10
  ({ nd with c := c, fx := some cc.2, err := err, igral := some igral },
   forceSplit)

/-- Sum of the `est_err` of a list of children (Python `sum` starts from
the integer 0). -/
def childrenErrSum (arena : List INode) (children : List ℕ) : F :=
  children.foldl (fun acc j => F.add acc (IState.node arena j).estErr) (F.fin 0)

/-- The `while ival is not None` ancestor loop of `complete_process`:
update `est_err` upward while the children sums stay finite.  The fuel
bounds the parent chain (handles of parents are strictly smaller than
their children's in any state the learner builds). -/
def ancestorUpdate (fuel : ℕ) (arena : List INode) : Option ℕ → List INode
  | none => arena
  | some j =>
      match fuel with
      | 0 => arena
      | fuel + 1 =>
          let nd := IState.node arena j
          let ce := childrenErrSum arena nd.children
          if ce.isFinite then
            ancestorUpdate fuel (arenaSet arena j { nd with estErr := ce }) nd.parent
          else arena

/-- `complete_process(self)` on the node with handle `i`: dispatch to the
process function, seed `est_err`, propagate upward, and decide the
machine-precision removal (`err < abs(igral) * eps * Vcond[depth]`).
Returns the new arena and `(force_split, remove)`. -/
def completeProcess (tab : NumTab) (arena : List INode) (i : ℕ) :
    Except IErr (List INode × Bool × Bool) :=
  let nd := IState.node arena i
  let step : Except IErr (INode × Bool) :=
    match nd.parent with
    | none => .ok (processMakeFirst tab nd, false)
    | some pid =>
        let pnd := IState.node arena pid
        if nd.rdepth > pnd.rdepth then
          match processSplit tab nd pnd with
          | .error e => .error e
          | .ok nd2 => .ok (nd2, false)
        else .ok (processRefine tab nd)
  match step with
  | .error e => .error e
  | .ok (nd2, forceSplit) =>
      let nd3 := if nd2.estErr.isInf then { nd2 with estErr := nd2.err } else nd2
      let arena2 := arenaSet arena i nd3
      let arena3 := ancestorUpdate arena2.length arena2 nd3.parent
      let remove := F.flt nd3.err
        (F.fin (|nd3.igral.getD 0| * tab.eps * tab.Vcond nd3.depth))
      let forceSplit := if remove then false else forceSplit
      .ok (arena3, forceSplit, remove)

/-- The fields of the learner state that the per-interval loop of
`add_point` can touch (everything except the point bookkeeping). -/
structure ICore where
  arena : List INode
  prioritySplit : List ℕ
  ivals : List ℕ
  errFinal : F
  igralFinal : F
deriving DecidableEq, Repr

/-- Project the loop-relevant fields. -/
def IState.core (s : IState) : ICore :=
  { arena := s.arena, prioritySplit := s.prioritySplit, ivals := s.ivals,
    errFinal := s.errFinal, igralFinal := s.igralFinal }

/-- Write the loop-relevant fields back. -/
def IState.withCore (s : IState) (c : ICore) : IState :=
  { s with arena := c.arena, prioritySplit := c.prioritySplit,
           ivals := c.ivals, errFinal := c.errFinal,
           igralFinal := c.igralFinal }

/-- The body of `for ival in ivals:` inside `add_point`, for the
interval with handle `i`: deposit the value in the interval, and if it
became complete (and is neither done nor discarded) run
`complete_process`, draining into the sealed accumulators on `remove`,
re-inserting into `ivals` otherwise, and queueing a forced split. -/
def addPointIval (tab : NumTab) (point : ℚ) (value : F) (c : ICore)
    (i : ℕ) : Except IErr ICore :=
  let nd0 := IState.node c.arena i
  let nd := { nd0 with donePoints := sdInsert nd0.donePoints point value }
  let arena1 := arenaSet c.arena i nd
  if nd.complete tab && !nd.doneb tab && !nd.discard then
    let inIvals := i ∈ c.ivals
    let ivals1 := c.ivals.erase i
    match completeProcess tab arena1 i with
    | .error e => .error e
    | .ok (arena2, forceSplit, remove) =>
        let nd2 := IState.node arena2 i
        let c1 : ICore :=
          if remove then
            { c with arena := arena2, ivals := ivals1,
                     errFinal := F.add c.errFinal nd2.err,
                     igralFinal := F.add c.igralFinal (F.fin (nd2.igral.getD 0)) }
          else if inIvals then
            { c with arena := arena2, ivals := ivalsInsert arena2 ivals1 i }
          else
            { c with arena := arena2, ivals := ivals1 }
        let c2 := if forceSplit then
            { c1 with prioritySplit := c1.prioritySplit ++ [i] } else c1
        .ok c2
  else .ok { c with arena := arena1 }

/-- The whole `for ival in ivals:` loop of `add_point`. -/
def addPointLoop (tab : NumTab) (point : ℚ) (value : F) :
    List ℕ → ICore → Except IErr ICore
  | [], c => .ok c
  | i :: rest, c =>
      match addPointIval tab point value c i with
      | .error e => .error e
      | .ok c2 => addPointLoop tab point value rest c2

/-- `IntegratorLearner.add_point(point, value)` (the learner's `tell`):
reject points that no interval ever asked for, record the value, and
process every interval listed under `x_mapping[point]`.  The membership
test `point not in self.x_mapping` does not create a defaultdict entry.
An error models the Python exception propagating to the caller. -/
def add_point (tab : NumTab) (s : IState) (point : ℚ) (value : F) :
    Except IErr IState :=
  match alookup s.xMapping point with
  | none => .error .valueError
  | some ivalIds =>
      let s1 := { s with donePoints := aset s.donePoints point value,
                         notDonePoints := setDiscardL s.notDonePoints point }
      match addPointLoop tab point value ivalIds s1.core with
      | .error e => .error e
      | .ok c => .ok (s1.withCore c)

/-- A freshly constructed `Interval(a, b)` with the fields the
constructor sets (`children`, `done_points`, `c = zeros((4, 33))`,
`est_err = inf`, `discard = False`, `igral = None`); the remaining slots
are filled by `make_first`, `refine` or `split` before use. -/
def defaultINode (tab : NumTab) (a b : ℚ) : INode :=
  { a := a, b := b,
    c := List.replicate 4 (List.replicate (tab.ns 3) (0 : ℚ)),
    cOld := [], depth := 0, fx := none, igral := none, err := F.nan,
    tol := none, rdepth := 0, ndiv := 0, parent := none, children := [],
    donePoints := [], estErr := F.inf, discard := false }

/-- `Interval.split(self)` on the arena: two children covering
`[a, m]` and `[m, b]`, each with `depth = 0`, `tol = tol/sqrt(2)`,
`err = err/sqrt(2)`, `rdepth + 1`, inherited `c_old` and `ndiv`.
The `TypeError` arm models `None / sqrt(2)` when the learner was
configured without an absolute tolerance. -/
def splitI (tab : NumTab) (arena : List INode) (i : ℕ) :
    Except IErr (List INode × ℕ × ℕ) :=
  let nd := IState.node arena i
  let points := nd.pointsAt tab nd.depth
  let m := points.getD (points.length / 2) 0
  match nd.tol with
  | none => .error .typeError
  | some t =>
      let mk := fun (x y : ℚ) =>
        { defaultINode tab x y with
          depth := 0
          tol := some (t / tab.sqrt2)
          cOld := nd.cOld
          rdepth := nd.rdepth + 1
          parent := some i
          ndiv := nd.ndiv
          err := nd.err.divQ tab.sqrt2 }
      let n := arena.length
      let arena2 := arena ++ [mk nd.a m, mk m nd.b]
      .ok (arenaSet arena2 i { nd with children := [n, n + 1] }, n, n + 1)

/-- `Interval.refine(self)` on the arena: one child with the same
bounds and `depth + 1`, inheriting tolerance, coefficients and history. -/
def refineI (tab : NumTab) (arena : List INode) (i : ℕ) : List INode × ℕ :=
  let nd := IState.node arena i
  let child := { defaultINode tab nd.a nd.b with
    tol := nd.tol, rdepth := nd.rdepth, ndiv := nd.ndiv, c := nd.c,
    cOld := nd.cOld, parent := some i, err := nd.err, depth := nd.depth + 1 }
  let n := arena.length
  (arenaSet (arena ++ [child]) i { nd with children := [n] }, n)

/-- The `for point in self._stack:` pruning loop of `set_discard`,
with Python's index-based iteration over a list being mutated
(`list.remove` shifts the tail, so the element after a removed one is
skipped).  `x_mapping[point]` on a missing key denotes the fresh empty
set a defaultdict would create, over which `all` is true.  The fuel is
the number of loop steps, bounded by the initial stack length. -/
def pruneStackGo (xm : List (ℚ × List ℕ)) (arena : List INode) :
    ℕ → ℕ → List ℚ → List ℚ
  | 0, _, stack => stack
  | fuel + 1, i, stack =>
      match stack.get? i with
      | none => stack
      | some p =>
          if ((alookup xm p).getD []).all (fun j => (IState.node arena j).discard)
          then pruneStackGo xm arena fuel (i + 1) (stack.erase p)
          else pruneStackGo xm arena fuel (i + 1) stack

/-- The non-recursive part of `_discard` inside `set_discard`. -/
def setDiscard1 (s : IState) (i : ℕ) : IState :=
  let nd := IState.node s.arena i
  let arena := arenaSet s.arena i { nd with discard := true }
  let ivals := s.ivals.erase i
  let stack := pruneStackGo s.xMapping arena (s.stack.length + 1) 0 s.stack
  { s with arena := arena, ivals := ivals, stack := stack }

/-- The recursion of `_discard` over the children (fuel bounds the tree
depth; handles of children exceed their parents in every state the
learner builds). -/
def setDiscardGo : ℕ → IState → ℕ → IState
  | 0, s, _ => s
  | fuel + 1, s, i =>
      let s1 := setDiscard1 s i
      ((IState.node s1.arena i).children).foldl (setDiscardGo fuel) s1

/-- `IntegratorLearner.set_discard(ival)`. -/
def set_discard (s : IState) (i : ℕ) : IState :=
  setDiscardGo (s.arena.length + 1) s i

/-- Add handle `i` under abscissa `x` in `x_mapping`
(`self.x_mapping[x].add(ival)`; the defaultdict creates the entry). -/
def xmAdd (s : IState) (x : ℚ) (i : ℕ) : IState :=
  let entry := (alookup s.xMapping x).getD []
  { s with xMapping := aset s.xMapping x (rdepthInsert s.arena entry i) }

/-- The `for x in points:` loop of `_update_ival`: register the
interval under each abscissa, replay `add_point` for values already
known, and push genuinely new abscissae onto `_stack`. -/
def updateIvalLoop (tab : NumTab) (i : ℕ) :
    List ℚ → IState → Except IErr IState
  | [], s => .ok s
  | x :: rest, s =>
      let s := xmAdd s x i
      match alookup s.donePoints x with
      | some v =>
          match add_point tab s x v with
          | .error e => .error e
          | .ok s2 => updateIvalLoop tab i rest s2
      | none =>
          if x ∈ s.notDonePoints then updateIvalLoop tab i rest s
          else updateIvalLoop tab i rest
            { s with notDonePoints := s.notDonePoints ++ [x],
                     stack := s.stack ++ [x] }

/-- `IntegratorLearner._update_ival(ival, points)`. -/
def updateIval (tab : NumTab) (s : IState) (i : ℕ) (points : List ℚ) :
    Except IErr IState :=
  match updateIvalLoop tab i points s with
  | .error e => .error e
  | .ok s2 => .ok { s2 with ivals := ivalsInsert s2.arena s2.ivals i }

/-- `IntegratorLearner._fill_stack()`: pick a priority-split interval
(discarding stale refinement children) or the largest-error interval,
and split or refine it unless its points have collapsed to machine
precision; cap `ivals` at 1000 entries. -/
def fillStack (tab : NumTab) (s : IState) : Except IErr IState :=
  let sel : Except IErr (IState × ℕ × Bool) :=
    match s.prioritySplit.getLast? with
    | some i =>
        let s1 := { s with prioritySplit := s.prioritySplit.dropLast }
        let s2 := if (IState.node s1.arena i).children ≠ [] then
            ((IState.node s1.arena i).children).foldl set_discard s1
          else s1
        .ok (s2, i, true)
    | none =>
        match s.ivals.getLast? with
        | none => .error .indexError
        | some i => .ok (s, i, false)
  match sel with
  | .error e => .error e
  | .ok (s, i, forceSplit) =>
      let s := { s with ivals := s.ivals.erase i }
      let nd := IState.node s.arena i
      let points := nd.pointsAt tab nd.depth
      let reachedMachineTol :=
        points.getD 1 0 ≤ points.getD 0 0 ||
        points.getD (points.length - 1) 0 ≤ points.getD (points.length - 2) 0
      let refined : Except IErr IState :=
        if !nd.discard && !reachedMachineTol then
          if nd.depth = 3 || forceSplit then
            match splitI tab s.arena i with
            | .error e => .error e
            | .ok (arena2, c1, c2) =>
                let s := { s with arena := arena2 }
                match updateIval tab s c1
                    ((IState.node s.arena c1).pointsAt tab 0) with
                | .error e => .error e
                | .ok s =>
                    updateIval tab s c2 ((IState.node s.arena c2).pointsAt tab 0)
          else
            let rc := refineI tab s.arena i
            let s := { s with arena := rc.1 }
            updateIval tab s rc.2
              ((IState.node s.arena rc.2).pointsAt tab
                (IState.node s.arena rc.2).depth)
        else .ok s
      match refined with
      | .error e => .error e
      | .ok s =>
          .ok (if s.ivals.length > 1000 then { s with ivals := s.ivals.drop 1 }
               else s)

/-- `IntegratorLearner.pop_from_stack(n)`: pop up to `n` abscissae and
report, for each, the maximal `err` among the intervals that want it
(`max` of an empty Python sequence raises). -/
def popFromStack (s : IState) (n : ℕ) :
    Except IErr (List ℚ × List F × IState) :=
  let points := s.stack.take n
  let s2 := { s with stack := s.stack.drop n }
  let rec imps : List ℚ → Except IErr (List F)
    | [] => .ok []
    | x :: rest =>
        match (alookup s2.xMapping x).getD [] with
        | [] => .error .valueError
        | j :: js =>
            match imps rest with
            | .error e => .error e
            | .ok ls =>
                .ok ((js.foldl (fun acc k =>
                    F.fmax acc (IState.node s2.arena k).err)
                    (IState.node s2.arena j).err) :: ls)
  match imps points with
  | .error e => .error e
  | .ok ls => .ok (points, ls, s2)

/-- The `while n_left > 0:` loop of `choose_points`; the fuel models the
fact that the Python loop can fail to make progress (and then spins
forever), reported here as `nonTermination`. -/
def choosePointsLoop (tab : NumTab) :
    ℕ → ℕ → List ℚ → List F → IState → Except IErr (List ℚ × List F × IState)
  | _, 0, pts, ls, s => .ok (pts, ls, s)
  | 0, _ + 1, _, _, _ => .error .nonTermination
  | fuel + 1, nLeft, pts, ls, s =>
      match fillStack tab s with
      | .error e => .error e
      | .ok s =>
          match popFromStack s nLeft with
          | .error e => .error e
          | .ok (np_, nl, s) =>
              choosePointsLoop tab fuel (nLeft - np_.length) (pts ++ np_)
                (ls ++ nl) s

/-- `IntegratorLearner.choose_points(n)` (the learner's `ask`). -/
def choose_points (tab : NumTab) (fuel : ℕ) (s : IState) (n : ℕ) :
    Except IErr (List ℚ × List F × IState) :=
  match popFromStack s n with
  | .error e => .error e
  | .ok (pts, ls, s) => choosePointsLoop tab fuel (n - pts.length) pts ls s

/-- `IntegratorLearner.remove_unfinished()`: the method body is `pass`,
so the state is returned untouched. -/
def remove_unfinished (s : IState) : IState := s

/-- `IntegratorLearner.__init__(function, bounds, tol, rtol)` up to the
learner state: reject a configuration with neither tolerance, build the
root interval via `make_first` (depth 3, `rdepth = 1`, `ndiv = 0`,
`err = inf`) and register its abscissae. -/
def initI (tab : NumTab) (a b : ℚ) (tol rtol : Option ℚ) :
    Except IErr IState :=
  if tol = none && rtol = none then .error .valueError
  else
    let root := { defaultINode tab a b with
      tol := tol, ndiv := 0, rdepth := 1, parent := none, depth := 3,
      cOld := List.replicate (tab.ns 3) (0 : ℚ), err := F.inf }
    let s0 : IState :=
      { tol := tol, rtol := rtol, arena := [root], prioritySplit := [],
        ivals := [], donePoints := [], notDonePoints := [], stack := [],
        errFinal := F.fin 0, igralFinal := F.fin 0, xMapping := [],
        firstIval := 0, cacheBranches := [] }
    updateIval tab s0 0 (root.pointsAt tab root.depth)

/-- The recursion `_find_deepest` of
`IntegratorLearner.deepest_complete_branches(ival)`: keep a node whose
own `est_err` is finite while its children's sum is infinite, else
descend.  The fuel bounds the tree depth. -/
def dcbGo (arena : List INode) : ℕ → ℕ → List ℕ
  | 0, _ => []
  | fuel + 1, i =>
      let nd := IState.node arena i
      let childrenErr := if nd.children = [] then F.inf
                         else childrenErrSum arena nd.children
      if nd.estErr.isFinite && childrenErr.isInf then [i]
      else nd.children.foldl (fun acc j => acc ++ dcbGo arena fuel j) []

/-- `IntegratorLearner.deepest_complete_branches(ival)`. -/
def deepestCompleteBranches (arena : List INode) (i : ℕ) : List ℕ :=
  dcbGo arena (arena.length + 1) i

/-- The `for ival in self._complete_branches:` loop of the
`complete_branches` property: a discarded cache entry forces a recompute
from the root (discarding what was accumulated so far, via `break`);
childless entries are kept as they are; others are replaced by their
deepest complete branches. -/
def cbLoop (arena : List INode) (root : ℕ) : List ℕ → List ℕ → List ℕ
  | [], acc => acc
  | i :: rest, acc =>
      if (IState.node arena i).discard then deepestCompleteBranches arena root
      else if (IState.node arena i).children = [] then
        cbLoop arena root rest (acc ++ [i])
      else cbLoop arena root rest (acc ++ deepestCompleteBranches arena i)

/-- The `complete_branches` property: empty until the root is done;
otherwise walk the cached branches (seeded with the root when the cache
is empty) and store the result back into `_complete_branches`. -/
def completeBranchesList (tab : NumTab) (arena : List INode) (first : ℕ)
    (cache : List ℕ) : List ℕ :=
  if !(IState.node arena first).doneb tab then []
  else cbLoop arena first (if cache = [] then [first] else cache) []

/-- The `complete_branches` property with its cache side effect: the
cache is written back only when the early `return []` is not taken. -/
def completeBranchesProp (tab : NumTab) (s : IState) : List ℕ × IState :=
  if !(IState.node s.arena s.firstIval).doneb tab then ([], s)
  else (completeBranchesList tab s.arena s.firstIval s.cacheBranches,
        { s with cacheBranches :=
            completeBranchesList tab s.arena s.firstIval s.cacheBranches })

/-- The value of the `igral` property:
`sum(i.igral for i in self.complete_branches)` (every complete branch is
done, so its `igral` slot is set; a `None` slot would make Python's sum
raise and is read as 0 here). -/
def igralVal (tab : NumTab) (arena : List INode) (first : ℕ)
    (cache : List ℕ) : ℚ :=
  (completeBranchesList tab arena first cache).foldl
    (fun acc i => acc + (IState.node arena i).igral.getD 0) 0

/-- The value of the `err` property: `+inf` when no branch is complete,
else the sum of the branches' `err`. -/
def errVal (tab : NumTab) (arena : List INode) (first : ℕ)
    (cache : List ℕ) : F :=
  match completeBranchesList tab arena first cache with
  | [] => F.inf
  | l => l.foldl (fun acc i => F.add acc (IState.node arena i).err) (F.fin 0)

/-- The `igral` property (value plus cache side effect). -/
def igralProp (tab : NumTab) (s : IState) : ℚ × IState :=
  (igralVal tab s.arena s.firstIval s.cacheBranches,
   (completeBranchesProp tab s).2)

/-- The `err` property (value plus cache side effect). -/
def errProp (tab : NumTab) (s : IState) : F × IState :=
  (errVal tab s.arena s.firstIval s.cacheBranches,
   (completeBranchesProp tab s).2)

/-- `IntegratorLearner.loss()`:
`abs(abs(self.igral) * self.tol - self.err)`.  Python evaluates
`abs(self.igral) * self.tol` first, so a learner configured with
`tol=None` raises `TypeError` before `err` is even computed. -/
def lossI (tab : NumTab) (s : IState) : Except IErr (F × IState) :=
  let r1 := igralProp tab s
  match s.tol with
  | none => .error .typeError
  | some t =>
      let r2 := errProp tab r1.2
      .ok (F.fabs (F.sub (F.fin (|r1.1| * t)) r2.1), r2.2)

/-- One driver operation against the integrator. -/
inductive IOp where
  | tell : ℚ → F → IOp
  | ask : ℕ → ℕ → IOp
deriving DecidableEq, Repr

/-- The visible output of one integrator operation. -/
inductive IOut where
  | unit : IOut
  | asked : List ℚ → List F → IOut
deriving DecidableEq, Repr

/-- One step of the integrator driver loop: `tell` is `add_point`,
`ask n` is `choose_points(n)` (with its loop fuel recorded in the
operation). -/
def istep (tab : NumTab) (s : IState) : IOp → Except IErr (IState × IOut)
  | .tell p v =>
      match add_point tab s p v with
      | .error e => .error e
      | .ok s2 => .ok (s2, .unit)
  | .ask n fuel =>
      match choose_points tab fuel s n with
      | .error e => .error e
      | .ok (pts, ls, s2) => .ok (s2, .asked pts ls)

/-- A run of the integrator from a state through a list of operations,
recording the final state and the outputs, or the first raised error. -/
inductive IRunFrom (tab : NumTab) :
    IState → List IOp → Except IErr (IState × List IOut) → Prop
  | nil (s : IState) : IRunFrom tab s [] (.ok (s, []))
  | consOk {s s2 s3 : IState} {op : IOp} {ops : List IOp} {o : IOut}
      {outs : List IOut} :
      istep tab s op = .ok (s2, o) →
      IRunFrom tab s2 ops (.ok (s3, outs)) →
      IRunFrom tab s (op :: ops) (.ok (s3, o :: outs))
  | consOkErr {s s2 : IState} {op : IOp} {ops : List IOp} {o : IOut}
      {e : IErr} :
      istep tab s op = .ok (s2, o) →
      IRunFrom tab s2 ops (.error e) →
      IRunFrom tab s (op :: ops) (.error e)
  | consErr {s : IState} {op : IOp} {ops : List IOp} {e : IErr} :
      istep tab s op = .error e →
      IRunFrom tab s (op :: ops) (.error e)

/-- A sample point of the triangulator (a tuple of floats). -/
abbrev Pt := List ℚ

/-- A simplex key (a tuple of vertex indices). -/
abbrev SKey := List ℕ

/-- Modelled from the spec: the contract of the external pure-geometry
`Triangulation` primitive (build, incremental `add_point` returning the
destroyed and created simplices, point location, membership tests,
vertex access, volumes), plus `find_initial_simplex`, whose body in
`triangulating_learner.py` delegates to `numpy.linalg.matrix_rank` and
`scipy.spatial.Delaunay`; the pluggable `loss_per_simplex` callable of
the learner configuration; and the value stream of the private
`random.Random(1)` generator (a fixed deterministic sequence, since the
seed is the constant 1). -/
structure GeoOps (Tri : Type) where
  mkTri : List Pt → Tri
  addPointT : Tri → Pt → Option SKey → Option (List ℚ) → Tri × (List SKey × List SKey)
  locatePoint : Tri → Pt → SKey
  pointInSimplex : Tri → Pt → SKey → Bool
  getVertices : Tri → SKey → List Pt
  vertexToSimplices : Tri → ℕ → List SKey
  volumeT : Tri → SKey → ℚ
  simplicesT : Tri → List SKey
  verticesT : Tri → List Pt
  findInitialSimplex : List Pt → ℕ → Option (List ℕ)
  lossPerSimplex : List Pt → List ℚ → ℚ
  randomStream : ℕ → ℚ

/-- State of a `TriangulatingLearner`.  `triF` is the `_tri` slot (the
`tri` property is `triGet` below); `rng` is the position inside the
fixed stream of the seeded private generator. -/
structure TState (Tri : Type) where
  ndim : ℕ
  bounds : List (ℚ × ℚ)
  data : List (Pt × ℚ)
  pending : List Pt
  boundsPoints : List Pt
  triF : Option Tri
  losses : List (SKey × ℚ)
  pendingToSimplex : List (Pt × SKey)
  subtriangulations : List (SKey × Tri)
  transform : List ℚ
  rng : ℕ
deriving DecidableEq, Repr

/-- `itertools.product(*bounds)`: all corner tuples, first coordinate
varying slowest. -/
def listProdQ : List (List ℚ) → List (List ℚ)
  | [] => [[]]
  | xs :: rest => xs.flatMap (fun x => (listProdQ rest).map (x :: ·))

/-- `TriangulatingLearner.__init__(func, bounds, loss_per_simplex)`:
empty data and pending sets, the 2^n corner points, the axis-normalizing
diagonal transform `inv(diag(diff(bounds)))` (stored as its diagonal),
and the private generator `random.Random(1)` at the start of its fixed
stream. -/
def initT (Tri : Type) (bounds : List (ℚ × ℚ)) : TState Tri :=
  { ndim := bounds.length, bounds := bounds, data := [], pending := [],
    boundsPoints := listProdQ (bounds.map (fun bd => [bd.1, bd.2])),
    triF := none, losses := [], pendingToSimplex := [],
    subtriangulations := [],
    transform := bounds.map (fun bd => 1 / (bd.2 - bd.1)), rng := 0 }

/-- `bounds_are_done`: every corner is a key of `data`. -/
def bounds_are_done {Tri : Type} (s : TState Tri) : Bool :=
  s.boundsPoints.all (· ∈ akeys s.data)

/-- The triangulation that the `tri` property constructs on its first
productive access: `Triangulation` of the initial simplex vertices,
then incremental insertion of every remaining data point. -/
def builtTri {Tri : Type} (geo : GeoOps Tri) (s : TState Tri)
    (initSx : List ℕ) : Tri :=
  let pts := akeys s.data
  let ipts := initSx.map (fun i => pts.getD i [])
  let t0 := geo.mkTri ipts
  let toAdd := (pts.enum.filter (fun q => q.1 ∉ initSx)).map (·.2)
  toAdd.foldl (fun t p => (geo.addPointT t p none (some s.transform)).1) t0

/-- The `tri` property, continued: when `_tri` is unset the property
builds the triangulation (`builtTri`) and stores it — but it then falls
off the end of the function body, so that very access evaluates to
`None`; only later accesses return the stored triangulation. -/
def triGet {Tri : Type} (geo : GeoOps Tri) (s : TState Tri) :
    Option Tri × TState Tri :=
  match s.triF with
  | some t => (some t, s)
  | none =>
      if s.data.length < 2 then (none, s)
      else
        match geo.findInitialSimplex (akeys s.data) s.ndim with
        | none => (none, s)
        | some initSx => (none, { s with triF := some (builtTri geo s initSx) })

/-- Ascending insertion sort on vertex indices (Python `sorted`). -/
def insertNat (x : ℕ) : List ℕ → List ℕ
  | [] => [x]
  | y :: rest => if x ≤ y then x :: y :: rest else y :: insertNat x rest

/-- Python `sorted` on a simplex key. -/
def sortNats (l : List ℕ) : List ℕ := l.foldr insertNat []

/-- `TriangulatingLearner._simplex_exists(simplex)`:
`tuple(sorted(simplex)) in self.tri.simplices`. -/
def simplexExists {Tri : Type} (geo : GeoOps Tri) (t : Tri) (sx : SKey) :
    Bool :=
  sortNats sx ∈ geo.simplicesT t

/-- The part of `_tell_pending` after the pending-set insertion: locate
the point (unless a truthy simplex hint is given), expand to all
simplices sharing a vertex with the located one, and insert the point
into (or create) the sub-triangulation of each one containing it.  Only
`_tri` (via the property) and `_subtriangulations` are written. -/
def tellPendingGeom {Tri : Type} (geo : GeoOps Tri) (s : TState Tri)
    (p : Pt) (hint : SKey) : TState Tri :=
  let r := triGet geo s
  match r.1 with
  | none => r.2
  | some t =>
      let simplex := if hint = [] then geo.locatePoint t p else hint
      if simplex = [] then r.2
      else
        let neighbours := setUnionL [] ((simplex.map (geo.vertexToSimplices t)).flatten)
        neighbours.foldl (fun s2 simpl =>
          if geo.pointInSimplex t p simpl then
            match alookup s2.subtriangulations simpl with
            | none =>
                let vs := geo.getVertices t simpl
                let tr := geo.mkTri vs
                let tr2 := (geo.addPointT tr p ((geo.simplicesT tr).head?) none).1
                { s2 with subtriangulations := aset s2.subtriangulations simpl tr2 }
            | some tr =>
                let tr2 := (geo.addPointT tr p none none).1
                { s2 with subtriangulations := aset s2.subtriangulations simpl tr2 }
          else s2) r.2

/-- `TriangulatingLearner._tell_pending(point, simplex=None)`; the empty
key plays the role of a falsy (absent) simplex hint. -/
def tell_pending {Tri : Type} (geo : GeoOps Tri) (s : TState Tri)
    (p : Pt) (hint : SKey) : TState Tri :=
  tellPendingGeom geo { s with pending := setAdd s.pending p } p hint

/-- `TriangulatingLearner.update_losses(to_delete, to_add)` acting on
the `(losses, subtriangulations, pending_to_simplex)` fields: forget
deleted simplices, collect their still-pending sub-triangulation
vertices, compute the loss of each created simplex, and rebind the
unbound pending points into whichever new simplex contains them. -/
def updateLossesCore {Tri : Type} (geo : GeoOps Tri) (t : Tri)
    (data : List (Pt × ℚ)) (toDel toAdd : List SKey)
    (st : List (SKey × ℚ) × List (SKey × Tri) × List (Pt × SKey)) :
    List (SKey × ℚ) × List (SKey × Tri) × List (Pt × SKey) :=
  let delRes := toDel.foldl
    (fun (acc : List (SKey × ℚ) × List (SKey × Tri) × List Pt) sx =>
      let losses := aremove acc.1 sx
      match alookup acc.2.1 sx with
      | some subtri =>
          (losses, aremove acc.2.1 sx, setUnionL acc.2.2 (geo.verticesT subtri))
      | none => (losses, acc.2.1, acc.2.2))
    (st.1, st.2.1, ([] : List Pt))
  let unbound := delRes.2.2.filter (fun p => p ∉ akeys data)
  toAdd.foldl
    (fun (acc : List (SKey × ℚ) × List (SKey × Tri) × List (Pt × SKey)) sx =>
      let vertices := geo.getVertices t sx
      let values := vertices.map (fun v => (alookup data v).getD 0)
      let l := geo.lossPerSimplex vertices values
      let losses := aset acc.1 sx l
      let inner := unbound.foldl
        (fun (acc2 : List (SKey × Tri) × List (Pt × SKey)) p =>
          if geo.pointInSimplex t p sx then
            let subtris2 := match alookup acc2.1 sx with
              | none => aset acc2.1 sx (geo.mkTri (geo.getVertices t sx))
              | some _ => acc2.1
            let tr := (alookup subtris2 sx).getD (geo.mkTri [])
            (aset subtris2 sx (geo.addPointT tr p none none).1,
             aset acc2.2 p sx)
          else acc2) (acc.2.1, acc.2.2)
      (losses, inner.1, inner.2))
    (delRes.1, delRes.2.1, st.2.2)

/-- Wrapper writing the three fields `update_losses` touches. -/
def update_losses {Tri : Type} (geo : GeoOps Tri) (t : Tri)
    (s : TState Tri) (toDel toAdd : List SKey) : TState Tri :=
  let r := updateLossesCore geo t s.data toDel toAdd
    (s.losses, s.subtriangulations, s.pendingToSimplex)
  { s with losses := r.1, subtriangulations := r.2.1,
           pendingToSimplex := r.2.2 }

/-- `TriangulatingLearner.tell(point, value)`: ignore a point already in
`data`; a `None` value marks the point pending; otherwise move the point
from `_pending` into `data` and, if the triangulation already exists,
insert it (with the recorded simplex hint when that simplex still
exists) and update the losses.  On the access that first builds the
triangulation the property yields `None`, so the insertion path is
skipped for that point. -/
def tellT {Tri : Type} (geo : GeoOps Tri) (s : TState Tri) (p : Pt)
    (v : Option ℚ) : TState Tri :=
  if p ∈ akeys s.data then s
  else
    match v with
    | none => tell_pending geo s p []
    | some val =>
        let s1 := { s with pending := setDiscardL s.pending p,
                           data := aset s.data p val }
        let r := triGet geo s1
        match r.1 with
        | none => r.2
        | some t =>
            let s2 := r.2
            let simplex := match alookup s2.pendingToSimplex p with
              | none => none
              | some sx => if simplexExists geo t sx then some sx else none
            let ar := geo.addPointT t p simplex (some s2.transform)
            let s3 := { s2 with triF := some ar.1 }
            update_losses geo ar.1 s3 ar.2.1 ar.2.2

/-- `TriangulatingLearner.remove_unfinished()`: clear `_pending`,
`_subtriangulations` and `_pending_to_simplex`. -/
def remove_unfinishedT {Tri : Type} (s : TState Tri) : TState Tri :=
  { s with pending := [], subtriangulations := [], pendingToSimplex := [] }

/-- Errors of the triangulator driver: the crash of
`choose_point_in_simplex` on fewer than two vertices (pdist/argmax on an
empty distance matrix), and an exhausted recursion bound. -/
inductive TErr where
  | degenerateSimplex : TErr
  | fuelExhausted : TErr
deriving DecidableEq, Repr

/-- `choose_point_in_simplex(simplex, transform)`: scale by the diagonal
transform, find the (row-major first) pair of vertices at maximal
distance, return the midpoint mapped back through the transform.
`pdist` compares Euclidean distances only through `argmax`, which is
preserved by comparing the squared distances (squaring is strictly
monotone on nonnegatives, so maxima and ties coincide). -/
def choose_point_in_simplex (points : List Pt) (tvec : List ℚ) :
    Option Pt :=
  let tp := points.map (fun p => (p.zip tvec).map (fun ab => ab.1 * ab.2))
  let idx := List.range tp.length
  let pairs := idx.flatMap (fun i =>
    (List.range tp.length).filterMap (fun j =>
      if i < j then some (i, j) else none))
  match pairs with
  | [] => none
  | p0 :: rest =>
      let sq := fun (pr : ℕ × ℕ) =>
        (((tp.getD pr.1 []).zip (tp.getD pr.2 [])).foldl
          (fun acc ab => acc + (ab.1 - ab.2) ^ 2) (0 : ℚ))
      let best := rest.foldl (fun cur pr => if sq pr > sq cur then pr else cur) p0
      let pa := tp.getD best.1 []
      let pb := tp.getD best.2 []
      let mid := (pa.zip pb).map (fun ab => (ab.1 + ab.2) / 2)
      some ((mid.zip tvec).map (fun mt => mt.1 / mt.2))

/-- Python tuple comparison on simplex keys. -/
def skeyLt : SKey → SKey → Bool
  | [], [] => false
  | [], _ :: _ => true
  | _ :: _, [] => false
  | a :: as_, b :: bs => if a < b then true else if b < a then false else skeyLt as_ bs

/-- Comparison of the `(-loss, simplex)` heap entries (lexicographic, as
Python compares tuples).  Distinct dict keys make ties impossible. -/
def pairLt (a b : ℚ × SKey) : Bool :=
  a.1 < b.1 || (a.1 = b.1 && skeyLt a.2 b.2)

/-- The minimum of a heap of `(-loss, simplex)` entries (what repeated
`heappop` returns next). -/
def minPair (l : List (ℚ × SKey)) : Option (ℚ × SKey) :=
  l.foldl (fun acc x =>
    match acc with
    | none => some x
    | some m => if pairLt x m then some x else some m) none

/-- `heapq.heappop` on the losses heap. -/
def heapPop (l : List (ℚ × SKey)) : Option ((ℚ × SKey) × List (ℚ × SKey)) :=
  match minPair l with
  | none => none
  | some m => some (m, l.erase m)

/-- Comparison of `(pend_loss, real_simplex, pend_simplex)` entries. -/
def tripLt (a b : ℚ × SKey × SKey) : Bool :=
  a.1 < b.1 || (a.1 = b.1 && (skeyLt a.2.1 b.2.1 ||
    (a.2.1 = b.2.1 && skeyLt a.2.2 b.2.2)))

/-- The root `pending_losses[0]` of the pending-losses heap. -/
def minTrip (l : List (ℚ × SKey × SKey)) : Option (ℚ × SKey × SKey) :=
  l.foldl (fun acc x =>
    match acc with
    | none => some x
    | some m => if tripLt x m then some x else some m) none

/-- The tail of one iteration of the `while len(new_points) < n:` loop of
`_ask`: take the popped real simplex (with `loss = abs(loss)`), prefer
the top pending sub-simplex when its pro-rated loss is larger, choose a
point inside the selected vertices, record the simplex hint, mark the
point pending, and return it with loss improvement `-loss`. -/
def askProcess {Tri : Type} (geo : GeoOps Tri) (t : Tri) (l : ℚ) (k : SKey)
    (pend : List (ℚ × SKey × SKey)) (s : TState Tri) :
    Except TErr ((Pt × F) × TState Tri) :=
  let points := geo.getVertices t k
  let labs := |l|
  let sel :=
    match minTrip pend with
    | some (pl, rk, pk) =>
        if |pl| > labs then
          let subtri := (alookup s.subtriangulations rk).getD (geo.mkTri [])
          (geo.getVertices subtri pk, rk, |pl|)
        else (points, k, labs)
    | none => (points, k, labs)
  match choose_point_in_simplex sel.1 s.transform with
  | none => .error .degenerateSimplex
  | some pnew =>
      let s2 := { s with pendingToSimplex := aset s.pendingToSimplex pnew sel.2.1 }
      let s3 := tell_pending geo s2 pnew sel.2.1
      .ok ((pnew, F.fin (-sel.2.2)), s3)

/-- The `while` loop of `_ask` (for `n = 1`): pop the largest-loss real
simplex; when it carries a sub-triangulation, pro-rate its loss over the
sub-simplices by volume (`pend_loss = subtri.volume * loss / volume`)
and continue; the loop therefore recurses at most once per heap entry.
An empty heap yields `loss = 0` and the empty simplex.  The zero-volume
guard Python would trip on is idealized by exact rational division. -/
def askLoop {Tri : Type} (geo : GeoOps Tri) (t : Tri) :
    ℕ → List (ℚ × SKey) → List (ℚ × SKey × SKey) → TState Tri →
    Except TErr ((Pt × F) × TState Tri)
  | 0, _, _, _ => .error .fuelExhausted
  | fuel + 1, losses, pend, s =>
      match heapPop losses with
      | some ((l, k), rest) =>
          if k ∈ akeys s.subtriangulations then
            let subtri := (alookup s.subtriangulations k).getD (geo.mkTri [])
            let dens := l / geo.volumeT t k
            let newPend := (geo.simplicesT subtri).map
              (fun ps => (geo.volumeT subtri ps * dens, k, ps))
            askLoop geo t fuel rest (pend ++ newPend) s
          else askProcess geo t l k pend s
      | none => askProcess geo t 0 [] pend s

/-- `TriangulatingLearner._ask()` (one requested point): corners of the
bounds box first (with loss improvement `+inf`); then, with no losses
yet (in particular while the triangulation does not exist), a uniform
random point from the seeded private generator (also `+inf`, and not
marked pending); otherwise the heap-driven simplex subdivision. -/
def ask1 {Tri : Type} (geo : GeoOps Tri) (s : TState Tri) :
    Except TErr ((Pt × F) × TState Tri) :=
  let todo := s.boundsPoints.filter
    (fun p => p ∉ akeys s.data && p ∉ s.pending)
  let corner :=
    if !bounds_are_done s then
      match todo with
      | c :: _ => some c
      | [] => none
    else none
  match corner with
  | some c => .ok ((c, F.inf), tell_pending geo s c [])
  | none =>
      let r := triGet geo s
      let s := r.2
      let lossesD : List (SKey × ℚ) :=
        match r.1 with
        | none => []
        | some _ => s.losses
      let heap := lossesD.map (fun kv => (-kv.2, kv.1))
      match r.1, heap with
      | some t, h :: hs => askLoop geo t (heap.length + 1) (h :: hs) [] s
      | _, _ =>
          let aD := s.bounds.map (fun bd => bd.2 - bd.1)
          let lows := s.bounds.map (·.1)
          let rv := (List.range s.ndim).map (fun k => geo.randomStream (s.rng + k))
          let p := (rv.zip (aD.zip lows)).map (fun x => x.1 * x.2.1 + x.2.2)
          .ok ((p, F.inf), { s with rng := s.rng + s.ndim })

/-- Iterated `ask(1)` calls, collecting the returned points and loss
improvements. -/
def askSeq {Tri : Type} (geo : GeoOps Tri) :
    ℕ → TState Tri → Except TErr (List (Pt × F) × TState Tri)
  | 0, s => .ok ([], s)
  | n + 1, s =>
      match ask1 geo s with
      | .error e => .error e
      | .ok (out, s2) =>
          match askSeq geo n s2 with
          | .error e => .error e
          | .ok (outs, s3) => .ok (out :: outs, s3)

/-- One driver operation against the triangulator. -/
inductive TOp where
  | tell : Pt → Option ℚ → TOp
  | ask : TOp
deriving DecidableEq, Repr

/-- The visible output of one triangulator operation. -/
inductive TOut where
  | unit : TOut
  | asked : Pt → F → TOut
deriving DecidableEq, Repr

/-- One step of the triangulator driver loop. -/
def tstep {Tri : Type} (geo : GeoOps Tri) (s : TState Tri) :
    TOp → Except TErr (TState Tri × TOut)
  | .tell p v => .ok (tellT geo s p v, .unit)
  | .ask =>
      match ask1 geo s with
      | .error e => .error e
      | .ok ((p, l), s2) => .ok (s2, .asked p l)

/-- A run of the triangulator from a state through a list of
operations. -/
inductive TRunFrom {Tri : Type} (geo : GeoOps Tri) :
    TState Tri → List TOp → Except TErr (TState Tri × List TOut) → Prop
  | nil (s : TState Tri) : TRunFrom geo s [] (.ok (s, []))
  | consOk {s s2 s3 : TState Tri} {op : TOp} {ops : List TOp} {o : TOut}
      {outs : List TOut} :
      tstep geo s op = .ok (s2, o) →
      TRunFrom geo s2 ops (.ok (s3, outs)) →
      TRunFrom geo s (op :: ops) (.ok (s3, o :: outs))
  | consOkErr {s s2 : TState Tri} {op : TOp} {ops : List TOp} {o : TOut}
      {e : TErr} :
      tstep geo s op = .ok (s2, o) →
      TRunFrom geo s2 ops (.error e) →
      TRunFrom geo s (op :: ops) (.error e)
  | consErr {s : TState Tri} {op : TOp} {ops : List TOp} {e : TErr} :
      tstep geo s op = .error e →
      TRunFrom geo s (op :: ops) (.error e)

/-- `volume(simplex)` over the reals: `|det(M)| / dim!` where `M` is the
`dim x dim` matrix `np.subtract(simplex[:-1], simplex[-1])` of edge
vectors from the last vertex. -/
noncomputable def volumeR (simplex : List (List ℝ)) : ℝ :=
  let dim := simplex.length - 1
  |Matrix.det (Matrix.of (fun (i j : Fin dim) =>
      (simplex.getD i.val []).getD j.val 0 - (simplex.getD dim []).getD j.val 0))|
    / Nat.factorial dim

/-- Component `j` of `np.std(ys, axis=0)` (population standard
deviation over the rows). -/
noncomputable def npStdAx0 (ys : List (List ℝ)) (j : ℕ) : ℝ :=
  let m := ys.length
  let mean := (ys.map (fun y => y.getD j 0)).sum / m
  Real.sqrt ((ys.map (fun y => (y.getD j 0 - mean) ^ 2)).sum / m)

/-- `np.linalg.norm(np.std(ys, axis=0))`: the Euclidean norm of the
per-component standard deviations. -/
noncomputable def normStdAx0 (ys : List (List ℝ)) : ℝ :=
  Real.sqrt (((List.range (ys.headD []).length).map
    (fun j => npStdAx0 ys j ^ 2)).sum)

/-- `std_loss(simplex, ys)`:
`r = np.linalg.norm(np.std(ys, axis=0)); vol = volume(simplex);`
`return r.flat * np.power(vol, 1./dim) + vol` — `r.flat` views the
scalar `r` as a one-element array, so the returned one-element array
holds exactly the scalar `r * vol**(1/dim) + vol` modelled here. -/
noncomputable def std_loss (simplex ys : List (List ℝ)) : ℝ :=
  let r := normStdAx0 ys
  let vol := volumeR simplex
  let dim := simplex.length - 1
  r * vol ^ ((1 : ℝ) / dim) + vol

/-- `default_loss(simplex, ys) = std_loss(simplex, ys)`. -/
noncomputable def default_loss (simplex ys : List (List ℝ)) : ℝ :=
  std_loss simplex ys

/-- `uniform_loss(simplex, ys) = volume(simplex)`. -/
noncomputable def uniform_loss (simplex ys : List (List ℝ)) : ℝ :=
  volumeR simplex

/-- A concrete table instantiation with empty abscissa lists (all
theorems are parametric in the tables; this instance only feeds
witnesses). -/
def tab0 : NumTab :=
  { ns := fun _ => 0, xi := fun _ => [], bdef := fun _ => [],
    alphav := fun _ => 0, gammav := fun _ => 0, VinvMul := fun _ _ => [],
    TleftMul := fun _ => [], TrightMul := fun _ => [], Vcond := fun _ => 0,
    qnorm := fun _ => 0, sqrt2 := 1, eps := 0 }

/-- A concrete table instantiation with five points per depth. -/
def tab1 : NumTab :=
  { ns := fun _ => 5, xi := fun _ => [-1, -1/2, 0, 1/2, 1],
    bdef := fun _ => [], alphav := fun _ => 0, gammav := fun _ => 0,
    VinvMul := fun _ _ => [], TleftMul := fun _ => [],
    TrightMul := fun _ => [], Vcond := fun _ => 0, qnorm := fun _ => 0,
    sqrt2 := 1, eps := 0 }

/-- A trivial geometry instantiation over the unit type (the fresh
learners exercised by the witnesses never reach the geometric
primitive). -/
def geo0 : GeoOps Unit :=
  { mkTri := fun _ => (), addPointT := fun _ _ _ _ => ((), ([], [])),
    locatePoint := fun _ _ => [], pointInSimplex := fun _ _ _ => false,
    getVertices := fun _ _ => [], vertexToSimplices := fun _ _ => [],
    volumeT := fun _ _ => 0, simplicesT := fun _ => [],
    verticesT := fun _ => [], findInitialSimplex := fun _ _ => none,
    lossPerSimplex := fun _ _ => 0, randomStream := fun _ => 0 }

/-- A geometry instantiation whose initial-simplex search succeeds as
soon as two points exist (for exercising the lazy construction of the
triangulation). -/
def geo1 : GeoOps Unit :=
  { geo0 with findInitialSimplex := fun pts _ =>
      if 2 ≤ pts.length then some [0, 1] else none }

/-- C3: at `parent.ndiv = 0`, `parent.c[0,0] = 1`, `c[0,0] = -3` the
ratio of absolute values is 3 > 2, yet the code (which compares the
signed ratio `c[0,0]/parent.c[0,0] = -3`) does not increment `ndiv`:
the claimed increment condition is false of `process_split`. -/
theorem c3_counterexample :
    ndivUpdate 0 1 (-3) = 0 ∧ |(-3 : ℚ)| / |(1 : ℚ)| > 2 ∧ |(1 : ℚ)| > 0 ∧
    ¬ ndivUpdate 0 1 (-3) = 0 + 1 := by
  refine ⟨?_, by norm_num, by norm_num, ?_⟩ <;>
    · unfold ndivUpdate; norm_num

/-- C3 (amended): `process_split` increments `ndiv` by exactly 1 iff
`|parent.c[0,0]| > 0` and the signed ratio `c[0,0]/parent.c[0,0]`
exceeds 2 (otherwise `ndiv` equals the parent's), and
`DivergentIntegralError` is raised iff afterwards `ndiv > 20` and
`2*ndiv > rdepth`. -/
theorem c3_theorem : ∀ (pn : ℤ) (pc c : ℚ) (rdepth : ℕ),
    (ndivUpdate pn pc c = pn + 1 ↔ (|pc| > 0 ∧ c / pc > 2)) ∧
    (ndivUpdate pn pc c = pn ∨ ndivUpdate pn pc c = pn + 1) ∧
    ((∃ e, processSplitNdivStep pn pc c rdepth = .error e) ↔
      (ndivUpdate pn pc c > 20 ∧ 2 * ndivUpdate pn pc c > (rdepth : ℤ))) := by
  intro pn pc c rdepth
  have hx : ndivUpdate pn pc c = pn + (if |pc| > 0 ∧ c / pc > 2 then 1 else 0) := by
    unfold ndivUpdate
    by_cases h1 : |pc| > 0 <;> by_cases h2 : c / pc > 2 <;> simp [h1, h2]
  refine ⟨?_, ?_, ?_⟩
  · rw [hx]; split_ifs with h
    · simpa using h
    · constructor
      · intro habs; omega
      · intro hc; exact absurd hc h
  · rw [hx]; split_ifs <;> omega
  · unfold processSplitNdivStep divergenceCheck
    by_cases h1 : ndivUpdate pn pc c > 20 <;>
      by_cases h2 : 2 * ndivUpdate pn pc c > (rdepth : ℤ) <;>
        simp [h1, h2]

/-- A learner state with a pending point, for C5. -/
def sC5 : IState :=
  { tol := some 1, rtol := none, arena := [], prioritySplit := [],
    ivals := [], donePoints := [], notDonePoints := [3], stack := [3],
    errFinal := F.fin 0, igralFinal := F.fin 0, xMapping := [],
    firstIval := 0, cacheBranches := [] }

/-- C5: `IntegratorLearner.remove_unfinished` is `pass` — on a state
with a dispensed-but-untold point it leaves `not_done_points` and
`_stack` nonempty, contradicting the claim that they end up empty. -/
theorem c5_counterexample :
    remove_unfinished sC5 = sC5 ∧
    ¬ (remove_unfinished sC5).notDonePoints = [] ∧
    ¬ (remove_unfinished sC5).stack = [] := by decide

/-- C5 (amended): the triangulator's `remove_unfinished` empties
`_pending`, `_subtriangulations` and `_pending_to_simplex` while leaving
`data` untouched, but the integrator's `remove_unfinished` is a no-op:
it clears nothing (in particular `not_done_points` and `_stack` keep
their contents). -/
theorem c5_theorem :
    (∀ s : IState, remove_unfinished s = s) ∧
    (∀ (Tri : Type) (ts : TState Tri),
      (remove_unfinishedT ts).pending = [] ∧
      (remove_unfinishedT ts).subtriangulations = [] ∧
      (remove_unfinishedT ts).pendingToSimplex = [] ∧
      (remove_unfinishedT ts).data = ts.data) :=
  ⟨fun _ => rfl, fun _ _ => ⟨rfl, rfl, rfl, rfl⟩⟩

/-- C8: `default_loss` is `std_loss`, and `std_loss` computes the
scalar `norm(std(values, axis=0)) * volume^(1/dim) + volume` where
`volume = |det M| / dim!` with `M` the `dim x dim` matrix of edge
vectors from the last vertex; the volume is nonnegative. -/
theorem c8_theorem :
    (∀ simplex ys : List (List ℝ), default_loss simplex ys = std_loss simplex ys) ∧
    (∀ simplex ys : List (List ℝ),
      std_loss simplex ys =
        Real.sqrt (((List.range (ys.headD []).length).map
            (fun j => (Real.sqrt ((ys.map (fun y =>
              (y.getD j 0 - (ys.map (fun y => y.getD j 0)).sum / ys.length) ^ 2)).sum
                / ys.length)) ^ 2)).sum)
          * (|Matrix.det (Matrix.of (fun (i j : Fin (simplex.length - 1)) =>
              (simplex.getD i.val []).getD j.val 0
                - (simplex.getD (simplex.length - 1) []).getD j.val 0))|
             / Nat.factorial (simplex.length - 1))
            ^ ((1 : ℝ) / ((simplex.length - 1 : ℕ) : ℝ))
          + |Matrix.det (Matrix.of (fun (i j : Fin (simplex.length - 1)) =>
              (simplex.getD i.val []).getD j.val 0
                - (simplex.getD (simplex.length - 1) []).getD j.val 0))|
            / Nat.factorial (simplex.length - 1)) ∧
    (∀ simplex : List (List ℝ), 0 ≤ volumeR simplex) := by
  refine ⟨fun _ _ => rfl, fun simplex ys => rfl, fun simplex => ?_⟩
  unfold volumeR
  positivity

/-- A done root interval (all zero of `tab0`'s zero samples present,
coefficients computed) carrying `igral = 2`, `err = 0`. -/
def ndC1 : INode :=
  { a := 0, b := 1, c := [], cOld := [], depth := 3, fx := some [],
    igral := some 2, err := F.fin 0, tol := some 1, rdepth := 1, ndiv := 0,
    parent := none, children := [], donePoints := [], estErr := F.fin 0,
    discard := false }

/-- A learner state whose sealed accumulators are nonzero
(`_igral_final = 1`, `_err_final = 5`) while the only complete branch
contributes `igral = 2`, `err = 0`. -/
def sC1 : IState :=
  { tol := some 1, rtol := none, arena := [ndC1], prioritySplit := [],
    ivals := [], donePoints := [], notDonePoints := [], stack := [],
    errFinal := F.fin 5, igralFinal := F.fin 1, xMapping := [],
    firstIval := 0, cacheBranches := [] }

/-- C1: the `igral` and `err` properties sum only over the complete
branches and never add `_igral_final` / `_err_final`: on `sC1` the
reported integral is 2, not 2 + 1, and the reported error is 0, not
0 + 5 — the sealed accumulators do not appear in the reported values. -/
theorem c1_counterexample :
    sC1.igralFinal = F.fin 1 ∧ sC1.errFinal = F.fin 5 ∧
    (igralProp tab0 sC1).1 = 2 ∧ (errProp tab0 sC1).1 = F.fin 0 ∧
    ¬ (igralProp tab0 sC1).1 = 2 + 1 ∧
    ¬ (errProp tab0 sC1).1 = F.add (F.fin 0) sC1.errFinal := by
  have h1 : (igralProp tab0 sC1).1 = 0 + 2 := rfl
  have h2 : (errProp tab0 sC1).1 = F.fin (0 + 0) := rfl
  have h3 : F.add (F.fin 0) sC1.errFinal = F.fin (0 + 5) := rfl
  refine ⟨rfl, rfl, by rw [h1]; norm_num, by rw [h2]; simp, ?_, ?_⟩
  · rw [h1]; norm_num
  · rw [h2, h3]; simp

/-- C1 (amended): the reported `igral` is the sum of `igral` over the
complete branches and the reported `err` is the corresponding sum (or
`+inf` when no branch is complete), with no `_igral_final`/`_err_final`
term: the reported values are invariant under changing the sealed
accumulators, and (on a fresh cache, with the root's `est_err` already
seeded) the complete branches are exactly the deepest complete branches
of the root once the root is done. -/
theorem c1_theorem : ∀ (tab : NumTab) (s : IState) (ef ig : F),
    ((igralProp tab { s with igralFinal := ig, errFinal := ef }).1 =
        (igralProp tab s).1 ∧
     (errProp tab { s with igralFinal := ig, errFinal := ef }).1 =
        (errProp tab s).1) ∧
    (s.cacheBranches = [] →
     (IState.node s.arena s.firstIval).estErr.isFinite = true →
      (completeBranchesProp tab s).1 =
        (if (IState.node s.arena s.firstIval).doneb tab = true
         then deepestCompleteBranches s.arena s.firstIval else []) ∧
      (igralProp tab s).1 = (completeBranchesProp tab s).1.foldl
        (fun acc i => acc + (IState.node s.arena i).igral.getD 0) 0 ∧
      (errProp tab s).1 = (if (completeBranchesProp tab s).1 = [] then F.inf
        else (completeBranchesProp tab s).1.foldl
          (fun acc i => F.add acc (IState.node s.arena i).err) (F.fin 0))) := by
  intro tab s ef ig
  have cbPropFst : ∀ s2 : IState, (completeBranchesProp tab s2).1 =
      completeBranchesList tab s2.arena s2.firstIval s2.cacheBranches := by
    intro s2
    unfold completeBranchesProp completeBranchesList
    split_ifs <;> rfl
  refine ⟨⟨rfl, rfl⟩, fun hc hf => ⟨?_, ?_, ?_⟩⟩
  · rw [cbPropFst]
    unfold completeBranchesList
    cases hdone : (IState.node s.arena s.firstIval).doneb tab with
    | false => simp [hdone]
    | true =>
        simp only [hdone, Bool.not_true, Bool.false_eq_true, if_false,
          if_true, hc]
        by_cases hd : (IState.node s.arena s.firstIval).discard
        · simp [cbLoop, hd]
        · by_cases hch : (IState.node s.arena s.firstIval).children = []
          · simp only [cbLoop, hd, Bool.false_eq_true, if_false, hch,
              if_true, List.nil_append]
            unfold deepestCompleteBranches dcbGo
            simp [hch, hf, F.isInf]
          · simp [cbLoop, hd, hch]
  · rw [cbPropFst]; rfl
  · rw [cbPropFst]
    show errVal tab s.arena s.firstIval s.cacheBranches = _
    unfold errVal
    cases hl : completeBranchesList tab s.arena s.firstIval s.cacheBranches with
    | nil => simp
    | cons a l => simp

/-- Witness for C1: the fresh-cache state `sC1` satisfies the
hypotheses of the amended theorem. -/
theorem c1_witness :
    sC1.cacheBranches = [] ∧
    (IState.node sC1.arena sC1.firstIval).estErr.isFinite = true ∧
    (completeBranchesProp tab0 sC1).1 =
      (if (IState.node sC1.arena sC1.firstIval).doneb tab0 = true
       then deepestCompleteBranches sC1.arena sC1.firstIval else []) :=
  ⟨rfl, rfl, ((c1_theorem tab0 sC1 F.nan F.nan).2 rfl rfl).1⟩

/-- C4: a `tell` for a point that was never dispensed (absent from
`x_mapping`) makes the integrator raise `ValueError` before any
mutation (the guard is the first statement of `add_point`, so the state
is unchanged when the exception propagates), and the triangulator's
`tell` returns the state entirely unchanged for a point already in
`data`. -/
theorem c4_theorem :
    (∀ (tab : NumTab) (s : IState) (p : ℚ) (v : F),
      alookup s.xMapping p = none →
      add_point tab s p v = .error .valueError) ∧
    (∀ (Tri : Type) (geo : GeoOps Tri) (s : TState Tri) (p : Pt)
        (v : Option ℚ), p ∈ akeys s.data → tellT geo s p v = s) := by
  constructor
  · intro tab s p v h
    unfold add_point
    rw [h]
  · intro Tri geo s p v h
    unfold tellT
    rw [if_pos h]

/-- An integrator state that never dispensed the point 0. -/
def sC4i : IState :=
  { tol := some 1, rtol := none, arena := [], prioritySplit := [],
    ivals := [], donePoints := [], notDonePoints := [], stack := [],
    errFinal := F.fin 0, igralFinal := F.fin 0, xMapping := [(1, [])],
    firstIval := 0, cacheBranches := [] }

/-- A triangulator state that already holds the point `(0,)` in data. -/
def sC4t : TState Unit :=
  { ndim := 1, bounds := [(0, 1)], data := [([0], 1)], pending := [],
    boundsPoints := [[0], [1]], triF := none, losses := [],
    pendingToSimplex := [], subtriangulations := [], transform := [1],
    rng := 0 }

/-- Witness for C4. -/
theorem c4_witness :
    add_point tab0 sC4i 0 (F.fin 0) = .error .valueError ∧
    tellT geo0 sC4t [0] (some 5) = sC4t :=
  ⟨c4_theorem.1 tab0 sC4i 0 (F.fin 0) (by decide),
   c4_theorem.2 Unit geo0 sC4t [0] (some 5) (by decide)⟩

/-- Truth of an integrator result (used to state that a configuration
is accepted). -/
def isOkI (r : Except IErr IState) : Bool :=
  match r with
  | .ok _ => true
  | .error _ => false

/-- C10: the constructor accepts `tol=None` with `rtol` given, yet
`loss()` then evaluates `abs(igral) * None` and raises `TypeError`
instead of returning a float; under the precondition that `tol` is a
float, `loss()` is total and returns `|(|igral| * tol) - err|`. -/
theorem c10_theorem :
    isOkI (initI tab0 0 1 none (some 1)) = true ∧
    (∀ (tab : NumTab) (s : IState), s.tol = none →
      lossI tab s = .error .typeError) ∧
    (∀ (tab : NumTab) (s : IState) (t : ℚ), s.tol = some t →
      lossI tab s = .ok
        (F.fabs (F.sub (F.fin (|(igralProp tab s).1| * t))
          ((errProp tab (igralProp tab s).2).1)),
         (errProp tab (igralProp tab s).2).2)) := by
  refine ⟨by decide, ?_, ?_⟩
  · intro tab s h
    unfold lossI
    rw [h]
  · intro tab s t h
    unfold lossI
    rw [h]

/-- An integrator state configured with `tol=None`, `rtol=1e-3`-like. -/
def sC10a : IState :=
  { tol := none, rtol := some 1, arena := [], prioritySplit := [],
    ivals := [], donePoints := [], notDonePoints := [], stack := [],
    errFinal := F.fin 0, igralFinal := F.fin 0, xMapping := [],
    firstIval := 0, cacheBranches := [] }

/-- The same state with a float tolerance. -/
def sC10b : IState := { sC10a with tol := some 1 }

/-- Witness for C10. -/
theorem c10_witness :
    lossI tab0 sC10a = .error .typeError ∧
    lossI tab0 sC10b = .ok
      (F.fabs (F.sub (F.fin (|(igralProp tab0 sC10b).1| * 1))
        ((errProp tab0 (igralProp tab0 sC10b).2).1)),
       (errProp tab0 (igralProp tab0 sC10b).2).2) :=
  ⟨c10_theorem.2.1 tab0 sC10a rfl, c10_theorem.2.2 tab0 sC10b 1 rfl⟩

/-- The fields of an association list touched by `aset`: a key of the
updated dictionary is the written key or an old key. -/
theorem mem_akeys_aset {α β : Type} [DecidableEq α] (l : List (α × β))
    (k x : α) (v : β) (h : x ∈ akeys (aset l k v)) : x = k ∨ x ∈ akeys l := by
  induction l with
  | nil => simpa [aset, akeys] using h
  | cons hd tl ih =>
      obtain ⟨k1, v1⟩ := hd
      simp only [aset] at h
      by_cases hk : k1 = k
      · rw [if_pos hk] at h
        simp only [akeys, List.map_cons, List.mem_cons] at h ⊢
        tauto
      · rw [if_neg hk] at h
        simp only [akeys, List.map_cons, List.mem_cons] at h ⊢
        rcases h with h | h
        · tauto
        · rcases ih h with h2 | h2 <;> tauto

/-- Membership in the set-insertion. -/
theorem mem_setAdd {α : Type} [DecidableEq α] (l : List α) (a x : α) :
    x ∈ setAdd l a ↔ x ∈ l ∨ x = a := by
  unfold setAdd
  split_ifs with h
  · constructor
    · exact Or.inl
    · rintro (h2 | rfl)
      · exact h2
      · exact h
  · simp

/-- Membership in the set-discard. -/
theorem mem_setDiscardL {α : Type} [DecidableEq α] (l : List α) (a x : α) :
    x ∈ setDiscardL l a ↔ x ∈ l ∧ x ≠ a := by
  simp [setDiscardL]

/-- A fold whose steps fix a projection fixes it. -/
theorem foldl_fix {α β γ : Type} (f : α → β → α) (proj : α → γ)
    (hstep : ∀ a b, proj (f a b) = proj a) :
    ∀ (l : List β) (a : α), proj (List.foldl f a l) = proj a := by
  intro l
  induction l with
  | nil => intro a; rfl
  | cons b bs ih => intro a; rw [List.foldl_cons, ih, hstep]

/-- A successful `add_point` updates exactly the point bookkeeping:
the value lands in `done_points` and the point leaves
`not_done_points` (the per-interval loop only touches the arena, the
queues and the sealed accumulators). -/
theorem add_point_points (tab : NumTab) (s : IState) (p : ℚ) (v : F)
    (s2 : IState) (h : add_point tab s p v = .ok s2) :
    s2.donePoints = aset s.donePoints p v ∧
    s2.notDonePoints = setDiscardL s.notDonePoints p := by
  unfold add_point at h
  cases hx : alookup s.xMapping p with
  | none => rw [hx] at h; exact absurd h (by simp)
  | some ids =>
      rw [hx] at h
      dsimp only at h
      generalize addPointLoop tab p v ids
        ({ s with donePoints := aset s.donePoints p v,
                  notDonePoints := setDiscardL s.notDonePoints p } :
          IState).core = r at h
      cases r with
      | error e => exact absurd h (by simp)
      | ok c =>
          simp only [Except.ok.injEq] at h
          subst h
          exact ⟨rfl, rfl⟩

/-- The `tri` property only writes the `_tri` slot. -/
theorem triGet_pd {Tri : Type} (geo : GeoOps Tri) (s : TState Tri) :
    ((triGet geo s).2).pending = s.pending ∧
    ((triGet geo s).2).data = s.data := by
  unfold triGet
  split
  · exact ⟨rfl, rfl⟩
  · split_ifs
    · exact ⟨rfl, rfl⟩
    · split
      · exact ⟨rfl, rfl⟩
      · exact ⟨rfl, rfl⟩

/-- The geometric part of `_tell_pending` only writes `_tri` and
`_subtriangulations`. -/
theorem tellPendingGeom_pd {Tri : Type} (geo : GeoOps Tri)
    (s : TState Tri) (p : Pt) (hint : SKey) :
    (tellPendingGeom geo s p hint).pending = ((triGet geo s).2).pending ∧
    (tellPendingGeom geo s p hint).data = ((triGet geo s).2).data := by
  unfold tellPendingGeom
  dsimp only
  rcases hr : (triGet geo s).1 with _ | t
  · simp [hr]
  · simp only [hr]
    split_ifs
    · exact ⟨rfl, rfl⟩
    all_goals
      constructor
      · refine foldl_fix _ (fun st : TState Tri => st.pending) ?_ _ _
        intro a b
        dsimp only
        split
        · split <;> rfl
        · rfl
      · refine foldl_fix _ (fun st : TState Tri => st.data) ?_ _ _
        intro a b
        dsimp only
        split
        · split <;> rfl
        · rfl

/-- Invariant (integrator): no point is simultaneously a key of
`done_points` and a member of `not_done_points`. -/
def InvIb (s : IState) : Bool :=
  (akeys s.donePoints).all (fun x => x ∉ s.notDonePoints)

/-- Invariant (triangulator): no pending point is a key of `data`. -/
def InvTb {Tri : Type} (s : TState Tri) : Bool :=
  s.pending.all (fun p => p ∉ akeys s.data)

/-- The registration loop of `_update_ival` never writes
`done_points`: starting from an empty `done_points` dictionary it stays
empty (the `add_point` replay branch is unreachable). -/
theorem updateIvalLoop_doneEmpty (tab : NumTab) (i : ℕ) :
    ∀ (pts : List ℚ) (s s2 : IState), s.donePoints = [] →
      updateIvalLoop tab i pts s = .ok s2 → s2.donePoints = [] := by
  intro pts
  induction pts with
  | nil =>
      intro s s2 hd h
      unfold updateIvalLoop at h
      injection h with h2
      subst h2
      exact hd
  | cons x rest ih =>
      intro s s2 hd h
      unfold updateIvalLoop at h
      dsimp only at h
      have hlk : alookup (xmAdd s x i).donePoints x = none := by
        have hxd : (xmAdd s x i).donePoints = s.donePoints := rfl
        rw [hxd, hd]
        rfl
      simp only [hlk] at h
      split at h
      · refine ih _ s2 ?_ h
        exact hd
      · refine ih _ s2 ?_ h
        exact hd

/-- A successful `add_point` keeps `done_points` and
`not_done_points` disjoint. -/
theorem addPoint_inv (tab : NumTab) (s : IState) (p : ℚ) (v : F)
    (s2 : IState) (hInv : InvIb s = true)
    (h : add_point tab s p v = .ok s2) : InvIb s2 = true := by
  · obtain ⟨hd, hn⟩ := add_point_points tab s p v s2 h
    simp only [InvIb, List.all_eq_true, decide_eq_true_eq] at hInv ⊢
    intro x hx
    rw [hd] at hx
    rw [hn]
    intro hmem
    have hm2 := (mem_setDiscardL s.notDonePoints p x).1 hmem
    rcases mem_akeys_aset s.donePoints p x v hx with h1 | h1
    · exact hm2.2 h1
    · exact (hInv x h1) hm2.1

/-- The triangulator's `tell` keeps `_pending` disjoint from the keys
of `data`. -/
theorem tellT_inv {Tri : Type} (geo : GeoOps Tri) (s : TState Tri)
    (p : Pt) (v : Option ℚ) (hInv : InvTb s = true) :
    InvTb (tellT geo s p v) = true := by
  · unfold tellT
    by_cases hmem : p ∈ akeys s.data
    · rw [if_pos hmem]; exact hInv
    · rw [if_neg hmem]
      cases v with
      | none =>
          unfold tell_pending
          have hpd := tellPendingGeom_pd geo
            { s with pending := setAdd s.pending p } p []
          have hg := triGet_pd geo { s with pending := setAdd s.pending p }
          simp only [InvTb, List.all_eq_true, decide_eq_true_eq] at hInv ⊢
          intro q hq
          rw [hpd.1, hg.1] at hq
          rw [hpd.2, hg.2]
          rcases (mem_setAdd s.pending p q).1 hq with h1 | h1
          · exact hInv q h1
          · rw [h1]; exact hmem
      | some val =>
          dsimp only
          have hg := triGet_pd geo
            { s with pending := setDiscardL s.pending p,
                     data := aset s.data p val }
          simp only [InvTb, List.all_eq_true, decide_eq_true_eq] at hInv
          split
          · rename_i heq
            simp only [InvTb, List.all_eq_true, decide_eq_true_eq]
            intro q hq
            rw [hg.1] at hq
            rw [hg.2]
            have hq2 := (mem_setDiscardL s.pending p q).1 hq
            intro habs
            rcases mem_akeys_aset s.data p q val habs with h1 | h1
            · exact hq2.2 h1
            · exact (hInv q hq2.1) h1
          · rename_i t heq
            simp only [InvTb, List.all_eq_true, decide_eq_true_eq]
            intro q hq
            simp only [update_losses] at hq ⊢
            rw [hg.1] at hq
            rw [hg.2]
            have hq2 := (mem_setDiscardL s.pending p q).1 hq
            intro habs
            rcases mem_akeys_aset s.data p q val habs with h1 | h1
            · exact hq2.2 h1
            · exact (hInv q hq2.1) h1

/-- The constructor establishes the disjointness invariant (the fresh
learner has no known points). -/
theorem initI_invIb (tab : NumTab) (a b : ℚ) (tol rtol : Option ℚ)
    (s0 : IState) (h : initI tab a b tol rtol = .ok s0) :
    InvIb s0 = true := by
  · unfold initI at h
    split_ifs at h with hcond
    dsimp only at h
    unfold updateIval at h
    split at h
    · exact absurd h (by simp)
    · rename_i s3 heq
      injection h with h2
      subst h2
      have hde : s3.donePoints = [] :=
        updateIvalLoop_doneEmpty tab 0 _ _ s3 rfl heq
      simp [InvIb, akeys, hde]

/-- A key a dictionary lookup misses is not among its keys. -/
theorem alookup_none_notmem {α β : Type} [DecidableEq α]
    (l : List (α × β)) (a : α) (h : alookup l a = none) : a ∉ akeys l := by
  induction l with
  | nil => simp [akeys]
  | cons hd tl ih =>
      obtain ⟨k, v⟩ := hd
      unfold alookup at h
      by_cases hk : k = a
      · rw [if_pos hk] at h
        exact absurd h (by simp)
      · rw [if_neg hk] at h
        simp only [akeys, List.map_cons, List.mem_cons]
        rintro (h1 | h1)
        · exact hk h1.symm
        · exact (ih h) (by simpa [akeys] using h1)

/-- The integrator invariant reads only the two point collections. -/
theorem invIb_eq (s1 s2 : IState) (h1 : s1.donePoints = s2.donePoints)
    (h2 : s1.notDonePoints = s2.notDonePoints) : InvIb s1 = InvIb s2 := by
  unfold InvIb
  rw [h1, h2]

/-- The triangulator invariant reads only `_pending` and `data`. -/
theorem invTb_eq {Tri : Type} (s1 s2 : TState Tri)
    (h1 : s1.pending = s2.pending) (h2 : s1.data = s2.data) :
    InvTb s1 = InvTb s2 := by
  unfold InvTb
  rw [h1, h2]

/-- The registration loop of `_update_ival` keeps the disjointness
invariant: replayed points go through `add_point`, and a genuinely new
abscissa enters `not_done_points` only under the failed
`done_points` lookup. -/
theorem updateIvalLoop_inv (tab : NumTab) (i : ℕ) :
    ∀ (pts : List ℚ) (s s2 : IState), InvIb s = true →
      updateIvalLoop tab i pts s = .ok s2 → InvIb s2 = true := by
  intro pts
  induction pts with
  | nil =>
      intro s s2 hInv h
      unfold updateIvalLoop at h
      injection h with h2
      subst h2
      exact hInv
  | cons x rest ih =>
      intro s s2 hInv h
      unfold updateIvalLoop at h
      dsimp only at h
      have hInv1 : InvIb (xmAdd s x i) = true := by
        rw [invIb_eq (xmAdd s x i) s rfl rfl]
        exact hInv
      cases hl : alookup (xmAdd s x i).donePoints x with
      | some v0 =>
          simp only [hl] at h
          cases hap : add_point tab (xmAdd s x i) x v0 with
          | error e =>
              simp only [hap] at h
              exact absurd h (by simp)
          | ok s3 =>
              simp only [hap] at h
              exact ih s3 s2 (addPoint_inv tab (xmAdd s x i) x v0 s3 hInv1 hap) h
      | none =>
          simp only [hl] at h
          split at h
          · refine ih _ s2 ?_ h
            exact hInv1
          · refine ih _ s2 ?_ h
            have hx : x ∉ akeys (xmAdd s x i).donePoints :=
              alookup_none_notmem _ _ hl
            simp only [InvIb, List.all_eq_true, decide_eq_true_eq]
              at hInv1 ⊢
            intro k hk hmemk
            rcases List.mem_append.1 hmemk with h1 | h1
            · exact (hInv1 k hk) h1
            · have hkx : k = x := by simpa using h1
              rw [hkx] at hk
              exact hx hk

/-- `_update_ival` keeps the disjointness invariant (the trailing
`ivals` insertion does not touch the point collections). -/
theorem updateIval_inv (tab : NumTab) (s : IState) (i : ℕ)
    (pts : List ℚ) (s2 : IState) (hInv : InvIb s = true)
    (h : updateIval tab s i pts = .ok s2) : InvIb s2 = true := by
  unfold updateIval at h
  split at h
  · exact absurd h (by simp)
  · rename_i s3 heq
    injection h with h2
    subst h2
    exact (invIb_eq _ s3 rfl rfl).trans
      (updateIvalLoop_inv tab i pts s s3 hInv heq)

/-- `set_discard` (at any recursion fuel) never touches the point
collections: it only rewrites the arena, `ivals` and `_stack`. -/
theorem setDiscardGo_points :
    ∀ (fuel : ℕ) (s : IState) (i : ℕ),
      (setDiscardGo fuel s i).donePoints = s.donePoints ∧
      (setDiscardGo fuel s i).notDonePoints = s.notDonePoints := by
  intro fuel
  induction fuel with
  | zero => intro s i; exact ⟨rfl, rfl⟩
  | succ fuel ih =>
      intro s i
      unfold setDiscardGo
      constructor
      · exact (foldl_fix (setDiscardGo fuel)
          (fun st : IState => st.donePoints)
          (fun a b => (ih a b).1) _ _).trans rfl
      · exact (foldl_fix (setDiscardGo fuel)
          (fun st : IState => st.notDonePoints)
          (fun a b => (ih a b).2) _ _).trans rfl

/-- `set_discard` itself never touches the point collections. -/
theorem set_discard_points (s : IState) (i : ℕ) :
    (set_discard s i).donePoints = s.donePoints ∧
    (set_discard s i).notDonePoints = s.notDonePoints :=
  setDiscardGo_points (s.arena.length + 1) s i

/-- Folding `set_discard` over a list of handles never touches the
point collections. -/
theorem foldl_set_discard_points (l : List ℕ) (s : IState) :
    (l.foldl set_discard s).donePoints = s.donePoints ∧
    (l.foldl set_discard s).notDonePoints = s.notDonePoints :=
  ⟨foldl_fix set_discard (fun st : IState => st.donePoints)
     (fun a b => (set_discard_points a b).1) l s,
   foldl_fix set_discard (fun st : IState => st.notDonePoints)
     (fun a b => (set_discard_points a b).2) l s⟩

/-- `pop_from_stack` never touches the point collections: it only
drains `_stack`. -/
theorem popFromStack_points (s : IState) (n : ℕ) (pts : List ℚ)
    (ls : List F) (s2 : IState)
    (h : popFromStack s n = .ok (pts, ls, s2)) :
    s2.donePoints = s.donePoints ∧ s2.notDonePoints = s.notDonePoints := by
  unfold popFromStack at h
  dsimp only at h
  split at h
  · exact absurd h (by simp)
  · rename_i ls0 heq
    injection h with h2
    injection h2 with h3 h4
    injection h4 with h5 h6
    rw [← h6]
    exact ⟨rfl, rfl⟩

/-- `_fill_stack` keeps the disjointness invariant: the selection and
discard phases never touch the point collections, and the split/refine
phases change them only through `_update_ival`. -/
theorem fillStack_inv (tab : NumTab) (s s2 : IState)
    (hInv : InvIb s = true) (h : fillStack tab s = .ok s2) :
    InvIb s2 = true := by
  have hcore : ∀ (sA : IState) (i : ℕ) (fs : Bool), InvIb sA = true →
      ((let sB := { sA with ivals := sA.ivals.erase i }
        let nd := IState.node sB.arena i
        let points := nd.pointsAt tab nd.depth
        let reachedMachineTol :=
          points.getD 1 0 ≤ points.getD 0 0 ||
          points.getD (points.length - 1) 0 ≤
            points.getD (points.length - 2) 0
        let refined : Except IErr IState :=
          if !nd.discard && !reachedMachineTol then
            if nd.depth = 3 || fs then
              match splitI tab sB.arena i with
              | .error e => .error e
              | .ok (arena2, c1, c2) =>
                  let sC := { sB with arena := arena2 }
                  match updateIval tab sC c1
                      ((IState.node sC.arena c1).pointsAt tab 0) with
                  | .error e => .error e
                  | .ok sD =>
                      updateIval tab sD c2
                        ((IState.node sD.arena c2).pointsAt tab 0)
            else
              let rc := refineI tab sB.arena i
              let sC := { sB with arena := rc.1 }
              updateIval tab sC rc.2
                ((IState.node sC.arena rc.2).pointsAt tab
                  (IState.node sC.arena rc.2).depth)
          else .ok sB
        match refined with
        | .error e => .error e
        | .ok sE =>
            .ok (if sE.ivals.length > 1000 then
                   { sE with ivals := sE.ivals.drop 1 }
                 else sE)) : Except IErr IState) = .ok s2 →
      InvIb s2 = true := by
    intro sA i fs hA hh
    have hB : InvIb { sA with ivals := sA.ivals.erase i } = true :=
      (invIb_eq _ sA rfl rfl).trans hA
    dsimp only at hh
    split at hh
    · exact absurd hh (by simp)
    · rename_i sE heq
      injection hh with hh2
      subst hh2
      have hE : InvIb sE = true := by
        split at heq
        · split at heq
          · split at heq
            · exact absurd heq (by simp)
            · rename_i arena2 c1 c2 hsplit
              split at heq
              · exact absurd heq (by simp)
              · rename_i sD hupd1
                have hC : InvIb { (
                    { sA with ivals := sA.ivals.erase i } : IState)
                    with arena := arena2 } = true :=
                  (invIb_eq _ sA rfl rfl).trans hA
                have hD : InvIb sD = true :=
                  updateIval_inv tab _ c1 _ sD hC hupd1
                exact updateIval_inv tab sD c2 _ sE hD heq
          · have hC : InvIb { (
                { sA with ivals := sA.ivals.erase i } : IState)
                with arena :=
                  (refineI tab sA.arena i).1 } = true :=
              (invIb_eq _ sA rfl rfl).trans hA
            exact updateIval_inv tab _ _ _ sE hC heq
        · injection heq with heq2
          rw [← heq2]
          exact hB
      split
      · exact (invIb_eq _ sE rfl rfl).trans hE
      · exact hE
  unfold fillStack at h
  cases hps : s.prioritySplit.getLast? with
  | some i =>
      simp only [hps] at h
      refine hcore _ i true ?_ h
      split
      · exact (invIb_eq _ s
          (foldl_set_discard_points _
            { s with prioritySplit := s.prioritySplit.dropLast }).1
          (foldl_set_discard_points _
            { s with prioritySplit := s.prioritySplit.dropLast }).2).trans hInv
      · exact (invIb_eq _ s rfl rfl).trans hInv
  | none =>
      simp only [hps] at h
      cases hiv : s.ivals.getLast? with
      | none =>
          simp only [hiv] at h
          exact absurd h (by simp)
      | some i =>
          simp only [hiv] at h
          exact hcore s i false hInv h

/-- The `while n_left > 0:` loop of `choose_points` keeps the
disjointness invariant at every fuel. -/
theorem choosePointsLoop_inv (tab : NumTab) :
    ∀ (fuel nLeft : ℕ) (pts : List ℚ) (ls : List F) (s : IState)
      (pts2 : List ℚ) (ls2 : List F) (s2 : IState), InvIb s = true →
      choosePointsLoop tab fuel nLeft pts ls s = .ok (pts2, ls2, s2) →
      InvIb s2 = true := by
  intro fuel
  induction fuel with
  | zero =>
      intro nLeft pts ls s pts2 ls2 s2 hInv h
      cases nLeft with
      | zero =>
          unfold choosePointsLoop at h
          injection h with h2
          injection h2 with h3 h4
          injection h4 with h5 h6
          rw [← h6]
          exact hInv
      | succ m =>
          unfold choosePointsLoop at h
          exact absurd h (by simp)
  | succ fuel ih =>
      intro nLeft pts ls s pts2 ls2 s2 hInv h
      cases nLeft with
      | zero =>
          unfold choosePointsLoop at h
          injection h with h2
          injection h2 with h3 h4
          injection h4 with h5 h6
          rw [← h6]
          exact hInv
      | succ m =>
          unfold choosePointsLoop at h
          cases hfs : fillStack tab s with
          | error e =>
              simp only [hfs] at h
              exact absurd h (by simp)
          | ok s3 =>
              simp only [hfs] at h
              have hInv3 : InvIb s3 = true := fillStack_inv tab s s3 hInv hfs
              cases hpp : popFromStack s3 (m + 1) with
              | error e =>
                  simp only [hpp] at h
                  exact absurd h (by simp)
              | ok trip =>
                  obtain ⟨np_, nl, s4⟩ := trip
                  simp only [hpp] at h
                  have hInv4 : InvIb s4 = true := by
                    obtain ⟨h1, h2⟩ :=
                      popFromStack_points s3 (m + 1) np_ nl s4 hpp
                    exact (invIb_eq s4 s3 h1 h2).trans hInv3
                  exact ih _ _ _ s4 pts2 ls2 s2 hInv4 h

/-- `choose_points` (the integrator's `ask`) keeps the disjointness
invariant. -/
theorem choose_points_inv (tab : NumTab) (fuel : ℕ) (s : IState) (n : ℕ)
    (pts2 : List ℚ) (ls2 : List F) (s2 : IState) (hInv : InvIb s = true)
    (h : choose_points tab fuel s n = .ok (pts2, ls2, s2)) :
    InvIb s2 = true := by
  unfold choose_points at h
  cases hpp : popFromStack s n with
  | error e =>
      simp only [hpp] at h
      exact absurd h (by simp)
  | ok trip =>
      obtain ⟨pts0, ls0, s3⟩ := trip
      simp only [hpp] at h
      have hInv3 : InvIb s3 = true := by
        obtain ⟨h1, h2⟩ := popFromStack_points s n pts0 ls0 s3 hpp
        exact (invIb_eq s3 s h1 h2).trans hInv
      exact choosePointsLoop_inv tab fuel _ _ _ s3 pts2 ls2 s2 hInv3 h

/-- A single driver operation (tell or ask) keeps the disjointness
invariant. -/
theorem istep_inv (tab : NumTab) (s : IState) (op : IOp) (s2 : IState)
    (o : IOut) (hInv : InvIb s = true)
    (h : istep tab s op = .ok (s2, o)) : InvIb s2 = true := by
  cases op with
  | tell p v =>
      unfold istep at h
      cases hap : add_point tab s p v with
      | error e =>
          simp only [hap] at h
          exact absurd h (by simp)
      | ok s3 =>
          simp only [hap] at h
          injection h with h2
          injection h2 with h3 h4
          rw [← h3]
          exact addPoint_inv tab s p v s3 hInv hap
  | ask n fuel =>
      unfold istep at h
      cases hcp : choose_points tab fuel s n with
      | error e =>
          simp only [hcp] at h
          exact absurd h (by simp)
      | ok trip =>
          obtain ⟨pts, ls, s3⟩ := trip
          simp only [hcp] at h
          injection h with h2
          injection h2 with h3 h4
          rw [← h3]
          exact choose_points_inv tab fuel s n pts ls s3 hInv hcp

/-- Along any successful run, the disjointness invariant propagates
from the initial state to the final one. -/
theorem irunFrom_invIb (tab : NumTab) :
    ∀ {ops : List IOp} {s : IState}
      {r : Except IErr (IState × List IOut)},
      IRunFrom tab s ops r → InvIb s = true →
      ∀ (s2 : IState) (outs : List IOut), r = .ok (s2, outs) →
      InvIb s2 = true := by
  intro ops s r h
  induction h with
  | nil s0 =>
      intro hInv s2 outs he
      injection he with he2
      injection he2 with he3 he4
      rw [← he3]
      exact hInv
  | consOk hstep hrest ih =>
      intro hInv s2 outs he
      injection he with he2
      injection he2 with he3 he4
      rw [← he3]
      exact ih (istep_inv tab _ _ _ _ hInv hstep) _ _ rfl
  | consOkErr hstep hrest ih =>
      intro hInv s2 outs he
      exact absurd he (by simp)
  | consErr hstep =>
      intro hInv s2 outs he
      exact absurd he (by simp)

/-- `_tell_pending` keeps `_pending` disjoint from the keys of `data`
whenever the newly pending point is not itself a key of `data`. -/
theorem tellPending_inv {Tri : Type} (geo : GeoOps Tri) (s : TState Tri)
    (p : Pt) (hint : SKey) (hInv : InvTb s = true)
    (hp : p ∉ akeys s.data) :
    InvTb (tell_pending geo s p hint) = true := by
  unfold tell_pending
  have hpd := tellPendingGeom_pd geo
    { s with pending := setAdd s.pending p } p hint
  have hg := triGet_pd geo { s with pending := setAdd s.pending p }
  simp only [InvTb, List.all_eq_true, decide_eq_true_eq] at hInv ⊢
  intro q hq
  rw [hpd.1, hg.1] at hq
  rw [hpd.2, hg.2]
  rcases (mem_setAdd s.pending p q).1 hq with h1 | h1
  · exact hInv q h1
  · rw [h1]; exact hp

/-- The tail of an `_ask` loop iteration keeps the invariant whenever
the chosen point is not a key of `data`. -/
theorem askProcess_inv {Tri : Type} (geo : GeoOps Tri) (t : Tri) (l : ℚ)
    (k : SKey) (pend : List (ℚ × SKey × SKey)) (s : TState Tri) (p : Pt)
    (lo : F) (s2 : TState Tri) (hInv : InvTb s = true)
    (h : askProcess geo t l k pend s = .ok ((p, lo), s2))
    (hp : p ∉ akeys s.data) : InvTb s2 = true := by
  unfold askProcess at h
  dsimp only at h
  split at h
  · exact absurd h (by simp)
  · rename_i pnew hch
    injection h with h2
    injection h2 with h3 h4
    injection h3 with h5 h6
    subst h5
    rw [← h4]
    refine tellPending_inv geo _ _ _ ?_ ?_
    · exact (invTb_eq _ s rfl rfl).trans hInv
    · exact hp

/-- The `_ask` heap loop keeps the invariant whenever the returned
point is not a key of `data` (at any fuel). -/
theorem askLoop_inv {Tri : Type} (geo : GeoOps Tri) (t : Tri) :
    ∀ (fuel : ℕ) (losses : List (ℚ × SKey))
      (pend : List (ℚ × SKey × SKey)) (s : TState Tri) (p : Pt) (lo : F)
      (s2 : TState Tri), InvTb s = true →
      askLoop geo t fuel losses pend s = .ok ((p, lo), s2) →
      p ∉ akeys s.data → InvTb s2 = true := by
  intro fuel
  induction fuel with
  | zero =>
      intro losses pend s p lo s2 hInv h hp
      unfold askLoop at h
      exact absurd h (by simp)
  | succ fuel ih =>
      intro losses pend s p lo s2 hInv h hp
      unfold askLoop at h
      dsimp only at h
      split at h
      · rename_i l0 k0 rest hpop
        split at h
        · exact ih _ _ s p lo s2 hInv h hp
        · exact askProcess_inv geo t l0 k0 pend s p lo s2 hInv h hp
      · exact askProcess_inv geo t 0 [] pend s p lo s2 hInv h hp

/-- `_ask` keeps the invariant whenever the returned point is not a
key of `data` (corner and random points always satisfy this by
construction; simplex-subdivision points do whenever the geometric
primitive returns a genuinely new point). -/
theorem ask1_inv {Tri : Type} (geo : GeoOps Tri) (s : TState Tri)
    (p : Pt) (lo : F) (s2 : TState Tri) (hInv : InvTb s = true)
    (h : ask1 geo s = .ok ((p, lo), s2)) (hp : p ∉ akeys s.data) :
    InvTb s2 = true := by
  unfold ask1 at h
  dsimp only at h
  split at h
  · rename_i c hc
    injection h with h2
    injection h2 with h3 h4
    injection h3 with h5 h6
    subst h5
    rw [← h4]
    exact tellPending_inv geo s _ [] hInv hp
  · have hg := triGet_pd geo s
    have hInvG : InvTb (triGet geo s).2 = true :=
      ((invTb_eq _ s hg.1 hg.2).trans hInv)
    have hpG : p ∉ akeys ((triGet geo s).2).data := by
      rw [hg.2]; exact hp
    split at h
    · exact askLoop_inv geo _ _ _ _ _ p lo s2 hInvG h hpG
    · injection h with h2
      injection h2 with h3 h4
      injection h3 with h5 h6
      rw [← h4]
      exact ((invTb_eq _ (triGet geo s).2 rfl rfl).trans hInvG)

/-- One triangulator driver step keeps the invariant, provided an ask
output is not already a key of `data`. -/
theorem tstepFresh_inv {Tri : Type} (geo : GeoOps Tri) (s : TState Tri)
    (op : TOp) (s2 : TState Tri) (o : TOut) (hInv : InvTb s = true)
    (h : tstep geo s op = .ok (s2, o))
    (hf : ∀ (p : Pt) (l : F), o = .asked p l → p ∉ akeys s.data) :
    InvTb s2 = true := by
  cases op with
  | tell p v =>
      unfold tstep at h
      injection h with h2
      injection h2 with h3 h4
      rw [← h3]
      exact tellT_inv geo s p v hInv
  | ask =>
      unfold tstep at h
      cases ha : ask1 geo s with
      | error e =>
          simp only [ha] at h
          exact absurd h (by simp)
      | ok pr =>
          obtain ⟨⟨p, l⟩, s3⟩ := pr
          simp only [ha] at h
          injection h with h2
          injection h2 with h3 h4
          rw [← h3]
          exact ask1_inv geo s p l s3 hInv ha (hf p l h4.symm)

/-- Modelled from the spec: a run of the triangulator whose asks only
ever hand out genuinely new points — each `asked` output is not a key
of `data` at the moment it is produced.  This is the guarantee of the
external geometric primitive (chosen points are interior midpoints of
existing simplices, never coinciding with an existing vertex);
over an arbitrary abstract geometry it is a side condition. -/
inductive TRunFresh {Tri : Type} (geo : GeoOps Tri) :
    TState Tri → List TOp → Except TErr (TState Tri × List TOut) → Prop
  | nil (s : TState Tri) : TRunFresh geo s [] (.ok (s, []))
  | consOk {s s2 s3 : TState Tri} {op : TOp} {ops : List TOp} {o : TOut}
      {outs : List TOut} :
      tstep geo s op = .ok (s2, o) →
      (∀ (p : Pt) (l : F), o = .asked p l → p ∉ akeys s.data) →
      TRunFresh geo s2 ops (.ok (s3, outs)) →
      TRunFresh geo s (op :: ops) (.ok (s3, o :: outs))

/-- A fresh run is in particular a run. -/
theorem trunFresh_run {Tri : Type} (geo : GeoOps Tri)
    {s : TState Tri} {ops : List TOp}
    {r : Except TErr (TState Tri × List TOut)}
    (h : TRunFresh geo s ops r) : TRunFrom geo s ops r := by
  induction h with
  | nil s0 => exact TRunFrom.nil s0
  | consOk hstep hfresh hrest ih => exact TRunFrom.consOk hstep ih

/-- Along any successful fresh run, the invariant propagates from the
initial state to the final one. -/
theorem trunFresh_invTb {Tri : Type} (geo : GeoOps Tri) :
    ∀ {ops : List TOp} {s : TState Tri}
      {r : Except TErr (TState Tri × List TOut)},
      TRunFresh geo s ops r → InvTb s = true →
      ∀ (s2 : TState Tri) (outs : List TOut), r = .ok (s2, outs) →
      InvTb s2 = true := by
  intro ops s r h
  induction h with
  | nil s0 =>
      intro hInv s2 outs he
      injection he with he2
      injection he2 with he3 he4
      rw [← he3]
      exact hInv
  | consOk hstep hfresh hrest ih =>
      intro hInv s2 outs he
      injection he with he2
      injection he2 with he3 he4
      rw [← he3]
      exact ih (tstepFresh_inv _ _ _ _ _ hInv hstep hfresh) _ _ rfl

/-- C6: the pending bookkeeping stays disjoint from the known data
after any `tell` and any `ask`: a successful integrator `add_point`
and any triangulator `tell` preserve the disjointness; so does every
driver step — integrator tells and asks unconditionally, a
triangulator ask whenever the point it hands out is not already a key
of `data` (corner and random points are such by construction, simplex
points whenever the geometric primitive returns a genuinely new
point); hence the invariant, established by both constructors, holds
in every state reached by a run (fresh asks assumed on the
triangulator side). -/
theorem c6_theorem :
    (∀ (tab : NumTab) (s : IState) (p : ℚ) (v : F) (s2 : IState),
      InvIb s = true → add_point tab s p v = .ok s2 → InvIb s2 = true) ∧
    (∀ (Tri : Type) (geo : GeoOps Tri) (s : TState Tri) (p : Pt)
        (v : Option ℚ), InvTb s = true → InvTb (tellT geo s p v) = true) ∧
    (∀ (tab : NumTab) (s : IState) (op : IOp) (s2 : IState) (o : IOut),
      InvIb s = true → istep tab s op = .ok (s2, o) → InvIb s2 = true) ∧
    (∀ (Tri : Type) (geo : GeoOps Tri) (s s2 : TState Tri) (p : Pt)
        (l : F), InvTb s = true →
      tstep geo s .ask = .ok (s2, .asked p l) → p ∉ akeys s.data →
      InvTb s2 = true) ∧
    (∀ (tab : NumTab) (a b : ℚ) (tol rtol : Option ℚ) (s0 : IState)
        (ops : List IOp) (s2 : IState) (outs : List IOut),
      initI tab a b tol rtol = .ok s0 →
      IRunFrom tab s0 ops (.ok (s2, outs)) → InvIb s2 = true) ∧
    (∀ (Tri : Type) (geo : GeoOps Tri) (bounds : List (ℚ × ℚ))
        (ops : List TOp) (s2 : TState Tri) (outs : List TOut),
      TRunFresh geo (initT Tri bounds) ops (.ok (s2, outs)) →
      InvTb s2 = true) ∧
    (∀ (tab : NumTab) (a b : ℚ) (tol rtol : Option ℚ) (s0 : IState),
      initI tab a b tol rtol = .ok s0 → InvIb s0 = true) ∧
    (∀ (Tri : Type) (bounds : List (ℚ × ℚ)),
      InvTb (initT Tri bounds) = true) := by
  refine ⟨addPoint_inv, ?_, istep_inv, ?_, ?_, ?_, initI_invIb,
    fun _ _ => rfl⟩
  · intro Tri geo s p v hInv
    exact tellT_inv geo s p v hInv
  · intro Tri geo s s2 p l hInv h hp
    exact tstepFresh_inv geo s .ask s2 (.asked p l) hInv h
      (fun q lq he => by
        injection he with he1 he2
        rw [← he1]
        exact hp)
  · intro tab a b tol rtol s0 ops s2 outs h0 hrun
    exact irunFrom_invIb tab hrun (initI_invIb tab a b tol rtol s0 h0)
      s2 outs rfl
  · intro Tri geo bounds ops s2 outs hrun
    exact trunFresh_invTb geo hrun rfl s2 outs rfl

/-- Decidable equality of results (the derived instances cover the
payloads). -/
instance exceptDecEq {e a : Type} [DecidableEq e] [DecidableEq a] :
    DecidableEq (Except e a) := fun x y =>
  match x, y with
  | .ok x1, .ok y1 =>
      if h : x1 = y1 then isTrue (by rw [h])
      else isFalse (by intro hh; cases hh; exact h rfl)
  | .error x1, .error y1 =>
      if h : x1 = y1 then isTrue (by rw [h])
      else isFalse (by intro hh; cases hh; exact h rfl)
  | .ok _, .error _ => isFalse (by intro hh; cases hh)
  | .error _, .ok _ => isFalse (by intro hh; cases hh)

/-- An integrator state whose point 1 is registered (with no interval
attached yet) and pending. -/
def sC6 : IState :=
  { tol := some 1, rtol := none, arena := [], prioritySplit := [],
    ivals := [], donePoints := [], notDonePoints := [1], stack := [1],
    errFinal := F.fin 0, igralFinal := F.fin 0, xMapping := [(1, [])],
    firstIval := 0, cacheBranches := [] }

/-- The state after telling `1`. -/
def sC6b : IState :=
  { sC6 with donePoints := [(1, F.fin 2)], notDonePoints := [] }

/-- A triangulator state with one known data point. -/
def sC6t : TState Unit :=
  { ndim := 1, bounds := [(0, 1)], data := [([1], 0)], pending := [],
    boundsPoints := [[0], [1]], triF := none, losses := [],
    pendingToSimplex := [], subtriangulations := [], transform := [1],
    rng := 0 }

/-- The root interval as `initI tab0 0 1 (some 1) none` creates it
(for the C6 run witness). -/
def rootC6r : INode :=
  { a := 0, b := 1, c := [[], [], [], []], cOld := [], depth := 3,
    fx := none, igral := none, err := F.inf, tol := some 1, rdepth := 1,
    ndiv := 0, parent := none, children := [], donePoints := [],
    estErr := F.inf, discard := false }

/-- The integrator state `initI tab0 0 1 (some 1) none` produces (for
the C6 run witness). -/
def sC6r : IState :=
  { tol := some 1, rtol := none, arena := [rootC6r], prioritySplit := [],
    ivals := [0], donePoints := [], notDonePoints := [], stack := [],
    errFinal := F.fin 0, igralFinal := F.fin 0, xMapping := [],
    firstIval := 0, cacheBranches := [] }

/-- An integrator state whose stacked point is wanted by the root
interval, so that an ask can pop it. -/
def sC6p : IState :=
  { sC6 with arena := [rootC6r], ivals := [0], xMapping := [(1, [0])] }

/-- The state the ask leaves behind: the stack is drained. -/
def sC6q : IState := { sC6p with stack := [] }

/-- A fresh two-dimensional triangulator state. -/
def sC6a : TState Unit := initT Unit [(0, 1), (0, 1)]

/-- The state after asking the fresh triangulator once: the first
corner went pending. -/
def sC6a2 : TState Unit := tell_pending geo0 sC6a [0, 0] []

/-- Witness for C6: a tell on a registered integrator point, a
triangulator tell, a successful integrator ask step, a fresh-corner
triangulator ask step, an empty run from a fresh integrator, and a
one-ask fresh run from a fresh triangulator. -/
theorem c6_witness :
    InvIb sC6 = true ∧ add_point tab1 sC6 1 (F.fin 2) = .ok sC6b ∧
    InvIb sC6b = true ∧ InvTb (tellT geo0 sC6t [5] none) = true ∧
    istep tab1 sC6p (.ask 1 0) = .ok (sC6q, .asked [1] [F.inf]) ∧
    InvIb sC6q = true ∧
    tstep geo0 sC6a .ask = .ok (sC6a2, .asked [0, 0] F.inf) ∧
    ([0, 0] : Pt) ∉ akeys sC6a.data ∧ InvTb sC6a2 = true ∧
    initI tab0 0 1 (some 1) none = .ok sC6r ∧ InvIb sC6r = true ∧
    InvTb (initT Unit [(0, 1)]) = true :=
  ⟨by decide, by decide,
   c6_theorem.1 tab1 sC6 1 (F.fin 2) sC6b (by decide) (by decide),
   c6_theorem.2.1 Unit geo0 sC6t [5] none (by decide),
   by decide,
   c6_theorem.2.2.1 tab1 sC6p (.ask 1 0) sC6q (.asked [1] [F.inf])
     (by decide) (by decide),
   rfl,
   by decide,
   c6_theorem.2.2.2.1 Unit geo0 sC6a sC6a2 [0, 0] F.inf (by decide) rfl
     (by decide),
   by decide,
   c6_theorem.2.2.2.2.1 tab0 0 1 (some 1) none sC6r [] sC6r []
     (by decide) (IRunFrom.nil sC6r),
   c6_theorem.2.2.2.2.2.1 Unit geo0 [(0, 1)] [] (initT Unit [(0, 1)]) []
     (TRunFresh.nil (initT Unit [(0, 1)]))⟩

/-- The points (with loss improvements) delivered by a sequence of
`ask(1)` calls, forgetting the final state. -/
def askSeqOuts {Tri : Type} (geo : GeoOps Tri) (n : ℕ) (s : TState Tri) :
    Option (List (Pt × F)) :=
  match askSeq geo n s with
  | .ok (l, _) => some l
  | .error _ => none

/-- C7: while some corner of the bounds box is neither known nor
pending, `ask(1)` returns the next such corner (in `_bounds_points`
order) with loss improvement `+inf`, marking it pending; with bounds
`[(0,1),(0,1)]` the first four asks of a fresh learner deliver the four
corners of the unit square, each with `+inf`. -/
theorem c7_theorem :
    (∀ (Tri : Type) (geo : GeoOps Tri) (s : TState Tri) (c : Pt)
        (rest : List Pt),
      s.boundsPoints.filter (fun p => p ∉ akeys s.data && p ∉ s.pending)
        = c :: rest →
      ask1 geo s = .ok ((c, F.inf), tell_pending geo s c [])) ∧
    askSeqOuts geo0 4 (initT Unit [(0, 1), (0, 1)]) =
      some [([0, 0], F.inf), ([0, 1], F.inf), ([1, 0], F.inf),
            ([1, 1], F.inf)] := by
  constructor
  · intro Tri geo s c rest h
    have hc : c ∈ s.boundsPoints.filter
        (fun p => p ∉ akeys s.data && p ∉ s.pending) := by
      rw [h]; exact List.mem_cons_self _ _
    have hcb := List.of_mem_filter hc
    have hcm := List.mem_of_mem_filter hc
    simp only [Bool.and_eq_true, decide_eq_true_eq] at hcb
    have hbd : bounds_are_done s = false := by
      unfold bounds_are_done
      simp only [List.all_eq_false, decide_eq_true_eq]
      exact ⟨c, hcm, hcb.1⟩
    unfold ask1
    rw [hbd, h]
    rfl
  · decide

/-- Witness for C7: the fresh learner's todo list starts with the
corner `(0, 0)`. -/
theorem c7_witness :
    ask1 geo0 (initT Unit [(0, 1), (0, 1)]) =
      .ok (([0, 0], F.inf),
        tell_pending geo0 (initT Unit [(0, 1), (0, 1)]) [0, 0] []) :=
  c7_theorem.1 Unit geo0 (initT Unit [(0, 1), (0, 1)]) [0, 0]
    [[0, 1], [1, 0], [1, 1]] (by decide)

/-- The first productive access of the `tri` property: it stores the
built triangulation but evaluates to `None` itself; the next access
returns the stored object. -/
theorem triGet_build {Tri : Type} (geo : GeoOps Tri) (s : TState Tri)
    (initSx : List ℕ) (h1 : s.triF = none) (h2 : 2 ≤ s.data.length)
    (h3 : geo.findInitialSimplex (akeys s.data) s.ndim = some initSx) :
    triGet geo s = (none, { s with triF := some (builtTri geo s initSx) }) := by
  unfold triGet
  simp only [h1]
  rw [if_neg (by omega)]
  simp only [h3]

/-- C9: when `_tri` is `None` and the data admits an initial simplex,
the `tri` property access builds and stores the triangulation but the
access itself evaluates to `None`; only the next access returns it.
Consequently the `tell` whose value enables the triangulation takes the
`tri`-is-`None` branch: the final state is exactly the pending/data
update plus the stored triangulation — in particular `_losses` is left
untouched, the incremental `add_point`/`update_losses` path not having
run for that point. -/
theorem c9_theorem :
    (∀ (Tri : Type) (geo : GeoOps Tri) (s : TState Tri) (initSx : List ℕ),
      s.triF = none → 2 ≤ s.data.length →
      geo.findInitialSimplex (akeys s.data) s.ndim = some initSx →
      triGet geo s = (none, { s with triF := some (builtTri geo s initSx) }) ∧
      (triGet geo (triGet geo s).2).1 = some (builtTri geo s initSx)) ∧
    (∀ (Tri : Type) (geo : GeoOps Tri) (s : TState Tri) (p : Pt) (v : ℚ)
        (initSx : List ℕ),
      p ∉ akeys s.data → s.triF = none →
      2 ≤ (aset s.data p v).length →
      geo.findInitialSimplex (akeys (aset s.data p v)) s.ndim = some initSx →
      tellT geo s p (some v) =
        { s with pending := setDiscardL s.pending p,
                 data := aset s.data p v,
                 triF := some (builtTri geo
                   { s with pending := setDiscardL s.pending p,
                            data := aset s.data p v } initSx) } ∧
      (tellT geo s p (some v)).losses = s.losses) := by
  constructor
  · intro Tri geo s initSx h1 h2 h3
    have hb := triGet_build geo s initSx h1 h2 h3
    refine ⟨hb, ?_⟩
    rw [hb]
    rfl
  · intro Tri geo s p v initSx hp h1 h2 h3
    have hb := triGet_build geo
      { s with pending := setDiscardL s.pending p, data := aset s.data p v }
      initSx h1 h2 h3
    have ht : tellT geo s p (some v) =
        { s with pending := setDiscardL s.pending p,
                 data := aset s.data p v,
                 triF := some (builtTri geo
                   { s with pending := setDiscardL s.pending p,
                            data := aset s.data p v } initSx) } := by
      unfold tellT
      rw [if_neg hp]
      dsimp only
      rw [hb]
    exact ⟨ht, by rw [ht]⟩

/-- A triangulator state holding two data points and no triangulation. -/
def s9 : TState Unit :=
  { ndim := 1, bounds := [(0, 1)], data := [([0], 1), ([1], 2)],
    pending := [], boundsPoints := [[0], [1]], triF := none, losses := [],
    pendingToSimplex := [], subtriangulations := [], transform := [1],
    rng := 0 }

/-- A triangulator state one `tell` short of a triangulation. -/
def s9b : TState Unit := { s9 with data := [([0], 1)] }

/-- Witness for C9. -/
theorem c9_witness :
    (triGet geo1 s9 = (none, { s9 with triF := some (builtTri geo1 s9 [0, 1]) }) ∧
     (triGet geo1 (triGet geo1 s9).2).1 = some (builtTri geo1 s9 [0, 1])) ∧
    (tellT geo1 s9b [1] (some 2)).losses = s9b.losses :=
  ⟨c9_theorem.1 Unit geo1 s9 [0, 1] rfl (by decide) (by decide),
   (c9_theorem.2 Unit geo1 s9b [1] 2 [0, 1] (by decide) rfl (by decide)
     (by decide)).2⟩

/-- Runs of the integrator are uniquely determined by the start state
and the operation list. -/
theorem irun_det (tab : NumTab) :
    ∀ {ops : List IOp} {s : IState}
      {r1 r2 : Except IErr (IState × List IOut)},
      IRunFrom tab s ops r1 → IRunFrom tab s ops r2 → r1 = r2 := by
  intro ops s r1 r2 h1 h2
  induction h1 generalizing r2 with
  | nil s0 =>
      cases h2
      rfl
  | consOk hstep hrest ih =>
      cases h2 with
      | consOk hstep2 hrest2 =>
          rw [hstep] at hstep2
          injection hstep2 with hp
          injection hp with hs ho
          subst hs; subst ho
          have hq := ih hrest2
          injection hq with hq2
          injection hq2 with ha hb
          subst ha; subst hb
          rfl
      | consOkErr hstep2 hrest2 =>
          rw [hstep] at hstep2
          injection hstep2 with hp
          injection hp with hs ho
          subst hs
          exact absurd (ih hrest2) (by simp)
      | consErr hstep2 =>
          rw [hstep] at hstep2
          exact absurd hstep2 (by simp)
  | consOkErr hstep hrest ih =>
      cases h2 with
      | consOk hstep2 hrest2 =>
          rw [hstep] at hstep2
          injection hstep2 with hp
          injection hp with hs ho
          subst hs
          exact absurd (ih hrest2) (by simp)
      | consOkErr hstep2 hrest2 =>
          rw [hstep] at hstep2
          injection hstep2 with hp
          injection hp with hs ho
          subst hs
          exact ih hrest2
      | consErr hstep2 =>
          rw [hstep] at hstep2
          exact absurd hstep2 (by simp)
  | consErr hstep =>
      cases h2 with
      | consOk hstep2 hrest2 =>
          rw [hstep] at hstep2
          exact absurd hstep2 (by simp)
      | consOkErr hstep2 hrest2 =>
          rw [hstep] at hstep2
          exact absurd hstep2 (by simp)
      | consErr hstep2 =>
          rw [hstep] at hstep2
          injection hstep2 with he
          subst he
          rfl

/-- Runs of the triangulator are uniquely determined by the start state
and the operation list. -/
theorem trun_det {Tri : Type} (geo : GeoOps Tri) :
    ∀ {ops : List TOp} {s : TState Tri}
      {r1 r2 : Except TErr (TState Tri × List TOut)},
      TRunFrom geo s ops r1 → TRunFrom geo s ops r2 → r1 = r2 := by
  intro ops s r1 r2 h1 h2
  induction h1 generalizing r2 with
  | nil s0 =>
      cases h2
      rfl
  | consOk hstep hrest ih =>
      cases h2 with
      | consOk hstep2 hrest2 =>
          rw [hstep] at hstep2
          injection hstep2 with hp
          injection hp with hs ho
          subst hs; subst ho
          have hq := ih hrest2
          injection hq with hq2
          injection hq2 with ha hb
          subst ha; subst hb
          rfl
      | consOkErr hstep2 hrest2 =>
          rw [hstep] at hstep2
          injection hstep2 with hp
          injection hp with hs ho
          subst hs
          exact absurd (ih hrest2) (by simp)
      | consErr hstep2 =>
          rw [hstep] at hstep2
          exact absurd hstep2 (by simp)
  | consOkErr hstep hrest ih =>
      cases h2 with
      | consOk hstep2 hrest2 =>
          rw [hstep] at hstep2
          injection hstep2 with hp
          injection hp with hs ho
          subst hs
          exact absurd (ih hrest2) (by simp)
      | consOkErr hstep2 hrest2 =>
          rw [hstep] at hstep2
          injection hstep2 with hp
          injection hp with hs ho
          subst hs
          exact ih hrest2
      | consErr hstep2 =>
          rw [hstep] at hstep2
          exact absurd hstep2 (by simp)
  | consErr hstep =>
      cases h2 with
      | consOk hstep2 hrest2 =>
          rw [hstep] at hstep2
          exact absurd hstep2 (by simp)
      | consOkErr hstep2 hrest2 =>
          rw [hstep] at hstep2
          exact absurd hstep2 (by simp)
      | consErr hstep2 =>
          rw [hstep] at hstep2
          injection hstep2 with he
          subst he
          rfl

/-- C2: two learners built from identical configuration and fed the
identical sequence of ask/tell operations agree exactly: the integrator
pair reaches the same state with the same outputs (or raises the same
error at the same step), and likewise the triangulator pair; the
triangulator's private generator starts at the fixed beginning of the
seed-1 stream regardless of configuration, so no entropy enters
either learner. -/
theorem c2_theorem :
    (∀ (tab : NumTab) (a b : ℚ) (tol rtol : Option ℚ) (s1 s2 : IState)
        (ops : List IOp) (r1 r2 : Except IErr (IState × List IOut)),
      initI tab a b tol rtol = .ok s1 → initI tab a b tol rtol = .ok s2 →
      IRunFrom tab s1 ops r1 → IRunFrom tab s2 ops r2 →
      s1 = s2 ∧ r1 = r2) ∧
    (∀ (Tri : Type) (geo : GeoOps Tri) (bounds : List (ℚ × ℚ))
        (ops : List TOp) (r1 r2 : Except TErr (TState Tri × List TOut)),
      TRunFrom geo (initT Tri bounds) ops r1 →
      TRunFrom geo (initT Tri bounds) ops r2 → r1 = r2) ∧
    (∀ (Tri : Type) (b1 b2 : List (ℚ × ℚ)),
      (initT Tri b1).rng = (initT Tri b2).rng) := by
  refine ⟨?_, ?_, fun _ _ _ => rfl⟩
  · intro tab a b tol rtol s1 s2 ops r1 r2 h1 h2 hr1 hr2
    rw [h1] at h2
    injection h2 with hs
    subst hs
    exact ⟨rfl, irun_det tab hr1 hr2⟩
  · intro Tri geo bounds ops r1 r2 hr1 hr2
    exact trun_det geo hr1 hr2

/-- The root interval as `initI tab0 0 1 (some 1) none` creates it. -/
def rootC2 : INode :=
  { a := 0, b := 1, c := [[], [], [], []], cOld := [], depth := 3,
    fx := none, igral := none, err := F.inf, tol := some 1, rdepth := 1,
    ndiv := 0, parent := none, children := [], donePoints := [],
    estErr := F.inf, discard := false }

/-- The integrator state `initI tab0 0 1 (some 1) none` produces. -/
def sC2 : IState :=
  { tol := some 1, rtol := none, arena := [rootC2], prioritySplit := [],
    ivals := [0], donePoints := [], notDonePoints := [], stack := [],
    errFinal := F.fin 0, igralFinal := F.fin 0, xMapping := [],
    firstIval := 0, cacheBranches := [] }

/-- Witness for C2: two empty runs from the same configuration. -/
theorem c2_witness :
    initI tab0 0 1 (some 1) none = .ok sC2 ∧
    (Except.ok (sC2, ([] : List IOut)) :
        Except IErr (IState × List IOut)) = .ok (sC2, []) ∧
    (Except.ok (initT Unit [(0, 1)], ([] : List TOut)) :
        Except TErr (TState Unit × List TOut)) =
      .ok (initT Unit [(0, 1)], []) :=
  ⟨by decide,
   (c2_theorem.1 tab0 0 1 (some 1) none sC2 sC2 [] _ _ (by decide)
     (by decide) (IRunFrom.nil sC2) (IRunFrom.nil sC2)).2,
   c2_theorem.2.1 Unit geo0 [(0, 1)] [] _ _ (TRunFrom.nil _) (TRunFrom.nil _)⟩
